import Mathlib

/-!
# Verification of the VADER sentiment Alteryx plugin

Shallow embedding of src/VADER_Sentiment_Engine.py.  The plugin is a thin
adapter around the Alteryx Python SDK: it clones the incoming record schema,
appends five sentiment fields, and for each incoming row copies the original
cells, runs the external analyzer on the configured text field, renders the
analyzer's four-score dict with str(), extracts the four numbers back out of
that text with re.findall, and writes them into the new fields.

The embedding models:
* Python decimal-float rendering (str of a float whose value is an exact
  decimal, the only values the analyzer produces) and parsing;
* the specific regular expression [-+]?\d*\.*\d+ used at line 189 of the
  source, with Python's greedy backtracking semantics;
* the SDK collaborator objects (RecordInfo, RecordCopier, RecordCreator,
  output anchor, engine message sink) at the level of detail the plugin
  exercises;
* the plugin callbacks pi_init, pi_push_all_records, ii_init, ii_push_record.

All definitions are executable; machine floats never enter the model because
every value the code manipulates is an exact decimal.
-/

set_option maxHeartbeats 1000000

/-! ## Decimal digit strings -/

/-- One decimal digit rendered as a character. -/
def digitChar (n : Nat) : Char := Char.ofNat (48 + n)

/-- Numeric value of a digit character. -/
def digitVal (c : Char) : Nat := c.toNat - 48

/-- Decimal digits of a natural number, most significant first.  Fuel-driven
so that it reduces inside the kernel; the fuel is always sufficient. -/
def natDigitsAux : Nat → Nat → List Char
  | 0, _ => []
  | fuel + 1, n =>
    if n < 10 then [digitChar n] else natDigitsAux fuel (n / 10) ++ [digitChar (n % 10)]

/-- Decimal digits of a natural number, most significant first. -/
def natDigits (n : Nat) : List Char := natDigitsAux (n + 1) n

/-- Exactly k decimal digits of n modulo 10 ^ k, zero padded on the left. -/
def natDigitsPad : Nat → Nat → List Char
  | _, 0 => []
  | n, k + 1 => natDigitsPad (n / 10) k ++ [digitChar (n % 10)]

/-- Value of a digit string, most significant digit first. -/
def parseDigits (l : List Char) : Nat := l.foldl (fun a c => 10 * a + digitVal c) 0

/-- Drop trailing zero characters. -/
def stripZeros (l : List Char) : List Char :=
  (l.reverse.dropWhile (fun c => c = '0')).reverse

/-- Fractional part of Python's str of the value f / 10 ^ s: the s digits of f,
with trailing zeros removed, except that a zero fraction prints as "0". -/
def fracRepr (f : Nat) (s : Nat) : List Char :=
  if stripZeros (natDigitsPad f s) = [] then ['0'] else stripZeros (natDigitsPad f s)

/-- Python's str of the float m / 10 ^ s (an exact decimal, the only kind of
value the analyzer returns: its scores are rounded to 3 or 4 decimal places,
so their shortest float repr is the plain decimal string). -/
def pyFloatRepr (m : Int) (s : Nat) : List Char :=
  (if m < 0 then ['-'] else []) ++
    natDigits (m.natAbs / 10 ^ s) ++ '.' :: fracRepr (m.natAbs % 10 ^ s) s

/-! ### Digit lemmas -/

theorem digitVal_digitChar {d : Nat} (h : d < 10) : digitVal (digitChar d) = d := by
  interval_cases d <;> decide

theorem isDigit_digitChar {d : Nat} (h : d < 10) : (digitChar d).isDigit = true := by
  interval_cases d <;> decide

theorem ne_of_isDigit {c x : Char} (h : c.isDigit = true) (hx : x.isDigit = false) :
    c ≠ x := by
  intro e; rw [e, hx] at h; cases h

/-- foldl characterization of parseDigits with an arbitrary accumulator. -/
theorem parseDigits_foldl (init : Nat) (l : List Char) :
    l.foldl (fun a c => 10 * a + digitVal c) init =
      init * 10 ^ l.length + parseDigits l := by
  induction l generalizing init with
  | nil => simp [parseDigits]
  | cons c t ih =>
    simp only [List.foldl_cons, parseDigits, List.length_cons]
    rw [ih (10 * init + digitVal c), ih (10 * 0 + digitVal c)]
    ring

theorem parseDigits_append (a b : List Char) :
    parseDigits (a ++ b) = parseDigits a * 10 ^ b.length + parseDigits b := by
  simp only [parseDigits, List.foldl_append]
  rw [parseDigits_foldl (List.foldl (fun a c => 10 * a + digitVal c) 0 a) b]
  rfl

theorem parseDigits_single (c : Char) : parseDigits [c] = digitVal c := by
  simp [parseDigits]

theorem parseDigits_replicate_zero (k : Nat) :
    parseDigits (List.replicate k '0') = 0 := by
  induction k with
  | zero => rfl
  | succ n ih =>
    have : List.replicate (n + 1) '0' = List.replicate n '0' ++ ['0'] := by
      rw [List.replicate_succ']
    rw [this, parseDigits_append, ih, parseDigits_single]
    rfl

theorem natDigitsAux_parse {f n : Nat} (h : n < 10 ^ f) :
    parseDigits (natDigitsAux f n) = n := by
  induction f generalizing n with
  | zero => interval_cases n; rfl
  | succ m ih =>
    rw [natDigitsAux]
    by_cases hn : n < 10
    · simp only [hn, if_true]
      rw [parseDigits_single, digitVal_digitChar hn]
    · simp only [hn, if_false]
      rw [parseDigits_append, parseDigits_single, digitVal_digitChar (Nat.mod_lt _ (by omega))]
      have hd : n / 10 < 10 ^ m := by
        rw [Nat.div_lt_iff_lt_mul (by omega)]
        calc n < 10 ^ (m + 1) := h
        _ = 10 ^ m * 10 := by ring
      rw [ih hd]
      simp only [List.length_cons, List.length_nil, pow_one]
      omega

theorem natDigitsAux_digits {f n : Nat} (h : n < 10 ^ f) :
    ∀ c ∈ natDigitsAux f n, c.isDigit = true := by
  induction f generalizing n with
  | zero => interval_cases n; intro c hc; cases hc
  | succ m ih =>
    rw [natDigitsAux]
    by_cases hn : n < 10
    · simp only [hn, if_true]
      intro c hc
      rw [List.mem_singleton] at hc
      rw [hc]; exact isDigit_digitChar hn
    · simp only [hn, if_false]
      intro c hc
      rw [List.mem_append] at hc
      rcases hc with hc | hc
      · have hd : n / 10 < 10 ^ m := by
          rw [Nat.div_lt_iff_lt_mul (by omega)]
          calc n < 10 ^ (m + 1) := h
          _ = 10 ^ m * 10 := by ring
        exact ih hd c hc
      · rw [List.mem_singleton] at hc
        rw [hc]; exact isDigit_digitChar (Nat.mod_lt _ (by omega))

theorem lt_ten_pow_succ (n : Nat) : n < 10 ^ (n + 1) :=
  lt_of_lt_of_le (Nat.lt_pow_self (by omega) n)
    (Nat.pow_le_pow_right (by omega) (by omega))

theorem natDigits_parse (n : Nat) : parseDigits (natDigits n) = n :=
  natDigitsAux_parse (lt_ten_pow_succ n)

theorem natDigits_digits (n : Nat) : ∀ c ∈ natDigits n, c.isDigit = true :=
  natDigitsAux_digits (lt_ten_pow_succ n)

theorem natDigits_ne_nil (n : Nat) : natDigits n ≠ [] := by
  rw [natDigits, natDigitsAux]
  by_cases hn : n < 10 <;> simp [hn]

theorem natDigitsPad_length (n k : Nat) : (natDigitsPad n k).length = k := by
  induction k generalizing n with
  | zero => rfl
  | succ m ih => rw [natDigitsPad]; simp [ih]

theorem natDigitsPad_digits (n k : Nat) :
    ∀ c ∈ natDigitsPad n k, c.isDigit = true := by
  induction k generalizing n with
  | zero => intro c hc; cases hc
  | succ m ih =>
    rw [natDigitsPad]
    intro c hc
    rw [List.mem_append] at hc
    rcases hc with hc | hc
    · exact ih _ c hc
    · rw [List.mem_singleton] at hc
      rw [hc]; exact isDigit_digitChar (Nat.mod_lt _ (by omega))

theorem mod_mul_ten_decomp (n P : Nat) (hP : 0 < P) :
    n % (10 * P) = 10 * (n / 10 % P) + n % 10 := by
  have h1 : n = (10 * (n / 10 % P) + n % 10) + n / 10 / P * (10 * P) := by
    have a1 : n / 10 = P * (n / 10 / P) + n / 10 % P := (Nat.div_add_mod _ _).symm
    calc n = 10 * (n / 10) + n % 10 := (Nat.div_add_mod _ _).symm
    _ = 10 * (P * (n / 10 / P) + n / 10 % P) + n % 10 := by rw [← a1]
    _ = (10 * (n / 10 % P) + n % 10) + n / 10 / P * (10 * P) := by ring
  have h2 : 10 * (n / 10 % P) + n % 10 < 10 * P := by
    have b1 : n / 10 % P < P := Nat.mod_lt _ hP
    have b2 : n % 10 < 10 := Nat.mod_lt _ (by omega)
    omega
  conv_lhs => rw [h1]
  rw [Nat.add_mul_mod_self_right, Nat.mod_eq_of_lt h2]

theorem natDigitsPad_parse (n k : Nat) :
    parseDigits (natDigitsPad n k) = n % 10 ^ k := by
  induction k generalizing n with
  | zero => simp [natDigitsPad, parseDigits, Nat.mod_one]
  | succ m ih =>
    rw [natDigitsPad, parseDigits_append, parseDigits_single,
      digitVal_digitChar (Nat.mod_lt _ (by omega)), ih]
    simp only [List.length_cons, List.length_nil, pow_one]
    have h1 : 10 ^ (m + 1) = 10 * 10 ^ m := by ring
    rw [h1, mod_mul_ten_decomp n (10 ^ m) (Nat.pos_pow_of_pos m (by omega))]
    omega

/-! ### Stripping trailing zeros -/

theorem stripZeros_spec (l : List Char) :
    ∃ k, l = stripZeros l ++ List.replicate k '0' := by
  refine ⟨(l.reverse.takeWhile (fun c => c = '0')).length, ?_⟩
  have h1 : l.reverse.takeWhile (fun c => c = '0') =
      List.replicate (l.reverse.takeWhile (fun c => c = '0')).length '0' := by
    apply List.eq_replicate_of_mem
    intro b hb
    have := List.mem_takeWhile_imp hb
    exact of_decide_eq_true this
  calc l = l.reverse.reverse := by rw [List.reverse_reverse]
  _ = (l.reverse.takeWhile (fun c => c = '0') ++
        l.reverse.dropWhile (fun c => c = '0')).reverse := by
      rw [List.takeWhile_append_dropWhile]
  _ = stripZeros l ++ (l.reverse.takeWhile (fun c => c = '0')).reverse := by
      rw [List.reverse_append]; rfl
  _ = stripZeros l ++ List.replicate (l.reverse.takeWhile (fun c => c = '0')).length '0' := by
      rw [congrArg List.reverse h1, List.reverse_replicate]

theorem stripZeros_mem {l : List Char} {c : Char} (h : c ∈ stripZeros l) : c ∈ l := by
  obtain ⟨k, hk⟩ := stripZeros_spec l
  rw [hk, List.mem_append]
  exact Or.inl h

theorem fracRepr_digits (f s : Nat) : ∀ c ∈ fracRepr f s, c.isDigit = true := by
  intro c hc
  rw [fracRepr] at hc
  by_cases ht : stripZeros (natDigitsPad f s) = []
  · rw [if_pos ht] at hc
    rw [List.mem_singleton] at hc
    rw [hc]; decide
  · rw [if_neg ht] at hc
    exact natDigitsPad_digits f s c (stripZeros_mem hc)

theorem fracRepr_ne_nil (f s : Nat) : fracRepr f s ≠ [] := by
  rw [fracRepr]
  by_cases ht : stripZeros (natDigitsPad f s) = [] <;> simp [ht]

/-- The rendered fraction denotes the same rational as f % 10 ^ s over 10 ^ s. -/
theorem fracRepr_value (f s : Nat) :
    (parseDigits (fracRepr f s) : ℚ) / 10 ^ (fracRepr f s).length =
      (f % 10 ^ s : Nat) / (10 ^ s : ℚ) := by
  obtain ⟨k, hk⟩ := stripZeros_spec (natDigitsPad f s)
  have hparse : f % 10 ^ s =
      parseDigits (stripZeros (natDigitsPad f s)) * 10 ^ k := by
    conv_lhs => rw [← natDigitsPad_parse f s, hk]
    rw [parseDigits_append, parseDigits_replicate_zero, List.length_replicate]
    omega
  have hlen : s = (stripZeros (natDigitsPad f s)).length + k := by
    have := congrArg List.length hk
    rw [List.length_append, List.length_replicate, natDigitsPad_length] at this
    exact this
  rw [fracRepr]
  by_cases ht : stripZeros (natDigitsPad f s) = []
  · rw [if_pos ht]
    rw [ht, parseDigits] at hparse
    simp only [List.foldl_nil, Nat.zero_mul] at hparse
    rw [hparse]
    have h0 : parseDigits ['0'] = 0 := by decide
    rw [h0]
    norm_num
  · rw [if_neg ht]
    set t := stripZeros (natDigitsPad f s) with hts
    rw [hparse]
    conv_rhs => rw [hlen]
    push_cast
    rw [pow_add]
    have h1 : (10 : ℚ) ^ t.length ≠ 0 := by positivity
    have h2 : (10 : ℚ) ^ k ≠ 0 := by positivity
    field_simp
    ring

/-! ### Parsing a decimal string (the SDK double field parse) -/

/-- Parse an unsigned decimal string: an optional integer digit run, then
optionally a point and a fractional digit run.  This is the fragment of C
double parsing that the plugin ever feeds the SDK. -/
def parseDecCore (l : List Char) : Option ℚ :=
  match l.dropWhile Char.isDigit with
  | '.' :: fp =>
    if fp.all Char.isDigit ∧ (l.takeWhile Char.isDigit ≠ [] ∨ fp ≠ []) then
      some ((parseDigits (l.takeWhile Char.isDigit) : ℚ) +
        (parseDigits fp : ℚ) / 10 ^ fp.length)
    else none
  | [] =>
    if l.takeWhile Char.isDigit ≠ [] then
      some ((parseDigits (l.takeWhile Char.isDigit) : ℚ))
    else none
  | _ => none

/-- Parse a decimal string with an optional sign. -/
def parseDec (str : String) : Option ℚ :=
  match str.data with
  | [] => none
  | c :: r =>
    if c = '-' then (parseDecCore r).map (fun q => -q)
    else if c = '+' then parseDecCore r
    else parseDecCore (c :: r)

theorem takeWhile_all_append {p : Char → Bool} {a : List Char} (c : Char) (b : List Char)
    (ha : ∀ x ∈ a, p x = true) (hc : p c = false) :
    (a ++ c :: b).takeWhile p = a ∧ (a ++ c :: b).dropWhile p = c :: b := by
  induction a with
  | nil => simp [List.takeWhile, List.dropWhile, hc]
  | cons x t ih =>
    have hx : p x = true := ha x (List.mem_cons_self x t)
    have ht : ∀ y ∈ t, p y = true := fun y hy => ha y (List.mem_cons_of_mem x hy)
    obtain ⟨ih1, ih2⟩ := ih ht
    constructor
    · simp only [List.cons_append, List.takeWhile_cons, hx, if_true, ih1]
    · simp only [List.cons_append, List.dropWhile_cons, hx, if_true, ih2]

theorem decimal_value (n : Nat) (s : Nat) :
    ((n / 10 ^ s : Nat) : ℚ) + ((n % 10 ^ s : Nat) : ℚ) / (10 ^ s : ℚ) =
      (n : ℚ) / 10 ^ s := by
  have h : (10 : ℚ) ^ s ≠ 0 := by positivity
  rw [eq_div_iff h, add_mul, div_mul_cancel₀ _ h]
  have h3 : ((10 ^ s * (n / 10 ^ s) + n % 10 ^ s : Nat) : ℚ) = ((n : Nat) : ℚ) := by
    rw [Nat.div_add_mod n (10 ^ s)]
  push_cast at h3
  linarith

theorem parseDecCore_reduce {l : List Char} {fp : List Char}
    (h : l.dropWhile Char.isDigit = '.' :: fp) :
    parseDecCore l =
      if fp.all Char.isDigit ∧ (l.takeWhile Char.isDigit ≠ [] ∨ fp ≠ []) then
        some ((parseDigits (l.takeWhile Char.isDigit) : ℚ) +
          (parseDigits fp : ℚ) / 10 ^ fp.length)
      else none := by
  rw [parseDecCore, h]
  rfl

/-- parseDecCore recovers the value of an unsigned rendered decimal. -/
theorem parseDecCore_num (q r s : Nat) :
    parseDecCore (natDigits q ++ '.' :: fracRepr r s) =
      some ((q : ℚ) + ((r % 10 ^ s : Nat) : ℚ) / (10 ^ s : ℚ)) := by
  obtain ⟨h1, h2⟩ :=
    takeWhile_all_append '.' (fracRepr r s) (natDigits_digits q) (by decide)
  rw [parseDecCore_reduce h2, h1]
  have hall : (fracRepr r s).all Char.isDigit = true := by
    rw [List.all_eq_true]
    intro c hc
    exact fracRepr_digits r s c hc
  rw [if_pos ⟨hall, Or.inr (fracRepr_ne_nil r s)⟩, natDigits_parse, fracRepr_value]

theorem parseDec_mk_cons (c : Char) (r : List Char) :
    parseDec (String.mk (c :: r)) =
      if c = '-' then (parseDecCore r).map (fun q => -q)
      else if c = '+' then parseDecCore r
      else parseDecCore (c :: r) := rfl

theorem mod_mod_pow (n s : Nat) : n % 10 ^ s % 10 ^ s = n % 10 ^ s :=
  Nat.mod_mod_of_dvd _ dvd_rfl

/-- Round trip: parsing the Python float repr of an exact decimal recovers
exactly that decimal. -/
theorem parseDec_pyFloatRepr (m : Int) (s : Nat) :
    parseDec (String.mk (pyFloatRepr m s)) = some ((m : ℚ) / 10 ^ s) := by
  have hval : ((m.natAbs / 10 ^ s : Nat) : ℚ) +
      ((m.natAbs % 10 ^ s % 10 ^ s : Nat) : ℚ) / (10 ^ s : ℚ) = (m.natAbs : ℚ) / 10 ^ s := by
    rw [mod_mod_pow]
    exact decimal_value m.natAbs s
  by_cases hm : m < 0
  · have hlist : pyFloatRepr m s =
        '-' :: (natDigits (m.natAbs / 10 ^ s) ++ '.' :: fracRepr (m.natAbs % 10 ^ s) s) := by
      rw [pyFloatRepr, if_pos hm]
      rfl
    rw [hlist, parseDec_mk_cons, if_pos rfl, parseDecCore_num]
    rw [Option.map_some']
    congr 1
    rw [hval]
    have habs : ((m.natAbs : Nat) : ℚ) = -(m : ℚ) := by
      rw [Int.cast_natAbs, abs_of_neg hm, Int.cast_neg]
    rw [habs]
    ring
  · have hlist : pyFloatRepr m s =
        natDigits (m.natAbs / 10 ^ s) ++ '.' :: fracRepr (m.natAbs % 10 ^ s) s := by
      rw [pyFloatRepr, if_neg hm]
      rfl
    obtain ⟨c, t, hct⟩ := List.exists_cons_of_ne_nil (natDigits_ne_nil (m.natAbs / 10 ^ s))
    have hcd : c.isDigit = true :=
      natDigits_digits _ c (by rw [hct]; exact List.mem_cons_self c t)
    have hlist2 : pyFloatRepr m s =
        c :: (t ++ '.' :: fracRepr (m.natAbs % 10 ^ s) s) := by
      rw [hlist, hct, List.cons_append]
    rw [hlist2, parseDec_mk_cons,
      if_neg (ne_of_isDigit hcd (by decide)), if_neg (ne_of_isDigit hcd (by decide)),
      ← List.cons_append, ← hct, parseDecCore_num]
    congr 1
    rw [hval]
    have habs : ((m.natAbs : Nat) : ℚ) = (m : ℚ) := by
      rw [Int.cast_natAbs, abs_of_nonneg (not_lt.mp hm)]
    rw [habs]

/-! ## The regular expression of line 189: re.findall of [-+]?\d*\.*\d+

Python's matcher tries, at each start position, the greedy alternatives in
order: an optional sign, then a maximal digit run for \d*, a maximal dot run
for \.*, and at least one digit for \d+, backtracking the dot run first and
the digit run second.  For this fixed pattern the backtracking collapses to
three cases, implemented below:

* if after the maximal digit run ds and the maximal dot run there is a digit,
  the match is ds, the dots, and the following maximal digit run (example:
  "0.65" matches whole, "3..5" matches whole);
* otherwise, if ds is nonempty, every shorter dot run still ends before a
  non-digit, and shortening ds by one makes \.* match zero dots and \d+ match
  the last digit of ds, so the match is exactly ds (examples: "12.x" and "5."
  match "12" and "5"); and
* otherwise there is no match at this position.
-/

/-- Greedy match of the body \d*\.*\d+ at the head of l, returning the
matched characters and the rest. -/
def matchBody (l : List Char) : Option (List Char × List Char) :=
  match (l.dropWhile Char.isDigit).dropWhile (fun c => c = '.') with
  | c :: rest =>
    if c.isDigit then
      some (l.takeWhile Char.isDigit ++
        ((l.dropWhile Char.isDigit).takeWhile (fun c => c = '.')) ++
        ((c :: rest).takeWhile Char.isDigit),
        (c :: rest).dropWhile Char.isDigit)
    else if l.takeWhile Char.isDigit ≠ [] then
      some (l.takeWhile Char.isDigit, l.dropWhile Char.isDigit)
    else none
  | [] =>
    if l.takeWhile Char.isDigit ≠ [] then
      some (l.takeWhile Char.isDigit, l.dropWhile Char.isDigit)
    else none

/-- Match of the whole pattern [-+]?\d*\.*\d+ at the head of l; the optional
sign is tried greedily first, falling back to the unsigned body. -/
def matchNum (l : List Char) : Option (List Char × List Char) :=
  match l with
  | [] => none
  | c :: rest =>
    if c = '-' ∨ c = '+' then
      match matchBody rest with
      | some q => some (c :: q.1, q.2)
      | none => matchBody l
    else matchBody l

/-- Fuel-driven scan of the whole string, collecting non-overlapping matches
left to right exactly as re.findall does. -/
def findallAux : Nat → List Char → List (List Char)
  | 0, _ => []
  | _ + 1, [] => []
  | fuel + 1, c :: rest =>
    match matchNum (c :: rest) with
    | some q => q.1 :: findallAux fuel q.2
    | none => findallAux fuel rest

/-- re.findall of the pattern over a character list. -/
def listFindall (l : List Char) : List (List Char) := findallAux l.length l

/-- re.findall of the pattern over a string. -/
def findall (s : String) : List String := (listFindall s.data).map (fun l => String.mk l)

/-! ### Regex lemmas -/

theorem matchBody_reduce_cons {l : List Char} {c : Char} {rest : List Char}
    (h : (l.dropWhile Char.isDigit).dropWhile (fun c => c = '.') = c :: rest) :
    matchBody l =
      if c.isDigit then
        some (l.takeWhile Char.isDigit ++
          ((l.dropWhile Char.isDigit).takeWhile (fun c => c = '.')) ++
          ((c :: rest).takeWhile Char.isDigit),
          (c :: rest).dropWhile Char.isDigit)
      else if l.takeWhile Char.isDigit ≠ [] then
        some (l.takeWhile Char.isDigit, l.dropWhile Char.isDigit)
      else none := by
  rw [matchBody, h]

theorem matchBody_reduce_nil {l : List Char}
    (h : (l.dropWhile Char.isDigit).dropWhile (fun c => c = '.') = []) :
    matchBody l =
      if l.takeWhile Char.isDigit ≠ [] then
        some (l.takeWhile Char.isDigit, l.dropWhile Char.isDigit)
      else none := by
  rw [matchBody, h]

theorem matchNum_cons (c : Char) (t : List Char) :
    matchNum (c :: t) =
      if c = '-' ∨ c = '+' then
        match matchBody t with
        | some q => some (c :: q.1, q.2)
        | none => matchBody (c :: t)
      else matchBody (c :: t) := rfl

/-- A successful body match consumes a nonempty prefix. -/
theorem matchBody_split {l m r : List Char} (h : matchBody l = some (m, r)) :
    l = m ++ r ∧ m ≠ [] := by
  have hl : l.takeWhile Char.isDigit ++ l.dropWhile Char.isDigit = l :=
    List.takeWhile_append_dropWhile _ _
  have hd : (l.dropWhile Char.isDigit).takeWhile (fun c => c = '.') ++
      (l.dropWhile Char.isDigit).dropWhile (fun c => c = '.') = l.dropWhile Char.isDigit :=
    List.takeWhile_append_dropWhile _ _
  cases hcase : (l.dropWhile Char.isDigit).dropWhile (fun c => c = '.') with
  | nil =>
    rw [matchBody_reduce_nil hcase] at h
    by_cases ht : l.takeWhile Char.isDigit ≠ []
    · rw [if_pos ht] at h
      rw [Option.some.injEq, Prod.mk.injEq] at h
      obtain ⟨rfl, rfl⟩ := h
      exact ⟨hl.symm, ht⟩
    · rw [if_neg ht] at h
      cases h
  | cons c rest =>
    rw [matchBody_reduce_cons hcase] at h
    by_cases hc : c.isDigit = true
    · rw [if_pos hc] at h
      rw [Option.some.injEq, Prod.mk.injEq] at h
      obtain ⟨rfl, rfl⟩ := h
      constructor
      · conv_lhs => rw [← hl, ← hd, hcase]
        rw [← List.takeWhile_append_dropWhile Char.isDigit (c :: rest)]
        simp [List.append_assoc]
      · intro hne
        rw [List.takeWhile_cons, if_pos hc] at hne
        simp at hne
    · rw [if_neg hc] at h
      by_cases ht : l.takeWhile Char.isDigit ≠ []
      · rw [if_pos ht] at h
        rw [Option.some.injEq, Prod.mk.injEq] at h
        obtain ⟨rfl, rfl⟩ := h
        exact ⟨hl.symm, ht⟩
      · rw [if_neg ht] at h
        cases h

/-- A successful pattern match consumes a nonempty prefix. -/
theorem matchNum_split {l m r : List Char} (h : matchNum l = some (m, r)) :
    l = m ++ r ∧ m ≠ [] := by
  cases l with
  | nil => cases h
  | cons c t =>
    rw [matchNum_cons] at h
    by_cases hs : c = '-' ∨ c = '+'
    · rw [if_pos hs] at h
      cases hb : matchBody t with
      | some q =>
        rw [hb] at h
        rw [Option.some.injEq, Prod.mk.injEq] at h
        obtain ⟨rfl, rfl⟩ := h
        obtain ⟨h1, _⟩ := matchBody_split hb
        constructor
        · rw [List.cons_append, ← h1]
        · simp
      | none =>
        rw [hb] at h
        exact matchBody_split h
    · rw [if_neg hs] at h
      exact matchBody_split h

theorem findallAux_nil (fuel : Nat) : findallAux fuel [] = [] := by
  cases fuel <;> rfl

/-- The scan result does not depend on the fuel, provided it covers the
length of the list. -/
theorem findallAux_congr (f1 : Nat) : ∀ (f2 : Nat) (l : List Char),
    l.length ≤ f1 → l.length ≤ f2 → findallAux f1 l = findallAux f2 l := by
  induction f1 with
  | zero =>
    intro f2 l h1 h2
    have : l = [] := List.length_eq_zero.mp (Nat.le_zero.mp h1)
    rw [this, findallAux_nil, findallAux_nil]
  | succ n ih =>
    intro f2 l h1 h2
    cases l with
    | nil => rw [findallAux_nil, findallAux_nil]
    | cons c rest =>
      rw [List.length_cons] at h1 h2
      cases f2 with
      | zero => omega
      | succ n2 =>
        rw [findallAux, findallAux]
        cases hm : matchNum (c :: rest) with
        | some q =>
          obtain ⟨hsplit, hne⟩ := matchNum_split hm
          have hlen : q.1.length + q.2.length = rest.length + 1 := by
            have := congrArg List.length hsplit
            rw [List.length_append, List.length_cons] at this
            omega
          have hpos : 0 < q.1.length := List.length_pos.mpr hne
          show q.1 :: findallAux n q.2 = q.1 :: findallAux n2 q.2
          rw [ih n2 q.2 (by omega) (by omega)]
        | none =>
          show findallAux n rest = findallAux n2 rest
          exact ih n2 rest (by omega) (by omega)

/-- Characters that can play no part in any match of the pattern. -/
def inert (c : Char) : Bool :=
  !c.isDigit && !(c == '.') && !(c == '-') && !(c == '+')

theorem inert_elim {c : Char} (h : inert c = true) :
    c.isDigit = false ∧ c ≠ '.' ∧ c ≠ '-' ∧ c ≠ '+' := by
  rw [inert] at h
  simp only [Bool.and_eq_true, Bool.not_eq_true', beq_eq_false_iff_ne, ne_eq] at h
  exact ⟨h.1.1.1, h.1.1.2, h.1.2, h.2⟩

theorem matchBody_inert {c : Char} {t : List Char} (h1 : c.isDigit = false)
    (h2 : c ≠ '.') : matchBody (c :: t) = none := by
  have hd1 : (c :: t).dropWhile Char.isDigit = c :: t := by
    rw [List.dropWhile_cons, if_neg (by simp [h1])]
  have hd2 : (c :: t).dropWhile (fun x => x = '.') = c :: t := by
    rw [List.dropWhile_cons, if_neg (by simp [h2])]
  have ht : (c :: t).takeWhile Char.isDigit = [] := by
    rw [List.takeWhile_cons, if_neg (by simp [h1])]
  have hcase : ((c :: t).dropWhile Char.isDigit).dropWhile (fun x => x = '.') = c :: t := by
    rw [hd1, hd2]
  rw [matchBody_reduce_cons hcase, if_neg (by simp [h1]), if_neg (by simp [ht])]

theorem matchNum_inert {c : Char} {t : List Char} (h : inert c = true) :
    matchNum (c :: t) = none := by
  obtain ⟨h1, h2, h3, h4⟩ := inert_elim h
  rw [matchNum_cons, if_neg (by simp [h3, h4])]
  exact matchBody_inert h1 h2

theorem listFindall_cons_inert {c : Char} {t : List Char} (h : inert c = true) :
    listFindall (c :: t) = listFindall t := by
  rw [listFindall, listFindall, List.length_cons, findallAux, matchNum_inert h]

/-- Inert characters before any match position are skipped. -/
theorem listFindall_sep {sep : List Char} (l : List Char)
    (h : ∀ c ∈ sep, inert c = true) :
    listFindall (sep ++ l) = listFindall l := by
  induction sep with
  | nil => rfl
  | cons c t ih =>
    rw [List.cons_append, listFindall_cons_inert (h c (List.mem_cons_self c t))]
    exact ih (fun x hx => h x (List.mem_cons_of_mem c hx))

theorem takeWhile_all {p : Char → Bool} {a : List Char} (ha : ∀ x ∈ a, p x = true) :
    a.takeWhile p = a ∧ a.dropWhile p = [] := by
  induction a with
  | nil => exact ⟨rfl, rfl⟩
  | cons x t ih =>
    have hx : p x = true := ha x (List.mem_cons_self x t)
    obtain ⟨ih1, ih2⟩ := ih (fun y hy => ha y (List.mem_cons_of_mem x hy))
    constructor
    · rw [List.takeWhile_cons, if_pos hx, ih1]
    · rw [List.dropWhile_cons, if_pos hx, ih2]

/-- The first character of l, if any, is not a digit. -/
def headNotDigit (l : List Char) : Prop :=
  ∀ c, l.head? = some c → c.isDigit = false

theorem takeWhile_digits_exact {a l : List Char} (ha : ∀ c ∈ a, c.isDigit = true)
    (hl : headNotDigit l) :
    (a ++ l).takeWhile Char.isDigit = a ∧ (a ++ l).dropWhile Char.isDigit = l := by
  cases l with
  | nil =>
    obtain ⟨h1, h2⟩ := takeWhile_all ha
    rw [List.append_nil]
    exact ⟨h1, h2⟩
  | cons c t => exact takeWhile_all_append c t ha (hl c rfl)

/-- At the start of a well-formed unsigned numeric token followed by a
non-digit, the greedy body match consumes exactly the token. -/
theorem matchBody_token {ds fs l : List Char}
    (hdsd : ∀ c ∈ ds, c.isDigit = true) (hfs : fs ≠ [])
    (hfsd : ∀ c ∈ fs, c.isDigit = true) (hl : headNotDigit l) :
    matchBody (ds ++ '.' :: (fs ++ l)) = some (ds ++ '.' :: fs, l) := by
  obtain ⟨h1, h2⟩ := takeWhile_all_append '.' (fs ++ l) hdsd (by decide)
  obtain ⟨fh, ft, hf⟩ := List.exists_cons_of_ne_nil hfs
  have hfhd : fh.isDigit = true := hfsd fh (by rw [hf]; exact List.mem_cons_self _ _)
  have hne : fh ≠ '.' := ne_of_isDigit hfhd (by decide)
  have h3 : ('.' :: (fs ++ l)).dropWhile (fun c => c = '.') = fs ++ l := by
    rw [List.dropWhile_cons, if_pos (by decide)]
    rw [hf, List.cons_append, List.dropWhile_cons, if_neg (by simp [hne])]
  have h4 : ('.' :: (fs ++ l)).takeWhile (fun c => c = '.') = ['.'] := by
    rw [List.takeWhile_cons, if_pos (by decide)]
    rw [hf, List.cons_append, List.takeWhile_cons, if_neg (by simp [hne])]
  obtain ⟨h5, h6⟩ := takeWhile_digits_exact hfsd hl
  have hcase : ((ds ++ '.' :: (fs ++ l)).dropWhile Char.isDigit).dropWhile
      (fun c => c = '.') = fh :: (ft ++ l) := by
    rw [h2, h3, hf, List.cons_append]
  have h7 : (fh :: (ft ++ l)).takeWhile Char.isDigit = fs := by
    rw [← List.cons_append, ← hf, h5]
  have h8 : (fh :: (ft ++ l)).dropWhile Char.isDigit = l := by
    rw [← List.cons_append, ← hf, h6]
  rw [matchBody_reduce_cons hcase, if_pos hfhd, h1, h2, h4, h7, h8]
  rw [List.append_assoc]
  rfl

/-- A numeric token as produced by Python float repr: an optional sign, a
nonempty integer digit run, a point, and a nonempty fraction digit run. -/
def IsNumToken (tok : List Char) : Prop :=
  ∃ sgn ds fs, (sgn = [] ∨ sgn = ['-'] ∨ sgn = ['+']) ∧ ds ≠ [] ∧
    (∀ c ∈ ds, c.isDigit = true) ∧ fs ≠ [] ∧ (∀ c ∈ fs, c.isDigit = true) ∧
    tok = sgn ++ ds ++ '.' :: fs

/-- At the start of a numeric token followed by a non-digit, the pattern
matches exactly the token. -/
theorem matchNum_token {tok l : List Char} (h : IsNumToken tok)
    (hl : headNotDigit l) : matchNum (tok ++ l) = some (tok, l) := by
  obtain ⟨sgn, ds, fs, hsgn, hds, hdsd, hfs, hfsd, htok⟩ := h
  have hbody : matchBody ((ds ++ '.' :: fs) ++ l) = some (ds ++ '.' :: fs, l) := by
    rw [List.append_assoc, List.cons_append]
    exact matchBody_token hdsd hfs hfsd hl
  obtain ⟨dh, dt, hd⟩ := List.exists_cons_of_ne_nil hds
  have hdh : dh.isDigit = true := hdsd dh (by rw [hd]; exact List.mem_cons_self _ _)
  have hnosign : ¬(dh = '-' ∨ dh = '+') := by
    rintro (rfl | rfl) <;> cases hdh
  rcases hsgn with rfl | rfl | rfl
  · rw [htok, List.nil_append]
    have hshape : (ds ++ '.' :: fs) ++ l = dh :: (dt ++ '.' :: fs ++ l) := by
      rw [hd]
      simp [List.append_assoc]
    rw [hshape, matchNum_cons, if_neg hnosign, ← hshape]
    exact hbody
  · rw [htok]
    have hshape : (['-'] ++ ds ++ '.' :: fs) ++ l = '-' :: ((ds ++ '.' :: fs) ++ l) := by
      simp [List.append_assoc]
    rw [hshape, matchNum_cons, if_pos (Or.inl rfl), hbody]
    rfl
  · rw [htok]
    have hshape : (['+'] ++ ds ++ '.' :: fs) ++ l = '+' :: ((ds ++ '.' :: fs) ++ l) := by
      simp [List.append_assoc]
    rw [hshape, matchNum_cons, if_pos (Or.inr rfl), hbody]
    rfl

theorem IsNumToken_ne_nil {tok : List Char} (h : IsNumToken tok) : tok ≠ [] := by
  obtain ⟨sgn, ds, fs, hsgn, hds, hdsd, hfs, hfsd, htok⟩ := h
  obtain ⟨dh, dt, hd⟩ := List.exists_cons_of_ne_nil hds
  rw [htok, hd]
  rcases hsgn with rfl | rfl | rfl <;> simp

/-- The scan at the start of a numeric token collects the token and goes on
after it. -/
theorem listFindall_token {tok l : List Char} (h : IsNumToken tok)
    (hl : headNotDigit l) : listFindall (tok ++ l) = tok :: listFindall l := by
  have hm : matchNum (tok ++ l) = some (tok, l) := matchNum_token h hl
  obtain ⟨c, t, hct⟩ := List.exists_cons_of_ne_nil (IsNumToken_ne_nil h)
  have hshape : tok ++ l = c :: (t ++ l) := by rw [hct, List.cons_append]
  rw [listFindall, hshape, List.length_cons, findallAux, ← hshape, hm]
  show tok :: findallAux (t ++ l).length l = tok :: listFindall l
  rw [listFindall,
    findallAux_congr (t ++ l).length l.length l (by simp) (Nat.le_refl _)]

/-! ## SDK data model

The collaborator objects of the Alteryx Python SDK, modelled at the level of
detail the plugin exercises: record metadata, field descriptors, record
creators and copiers, and the output anchor.  Cells carry exact values; a
double field stores the parsed value of the string given to set_from_string,
and a sized string field truncates to its capacity, as SDK fields do.
-/

namespace VSE

inductive FieldType
  | v_wstring
  | double
  | other (tag : String)
deriving DecidableEq

structure Field where
  name : String
  ftype : FieldType
  size : Option Nat
deriving DecidableEq

structure RecordInfo where
  fields : List Field
deriving DecidableEq

def RecordInfo.clone (r : RecordInfo) : RecordInfo := r

/-- add_field with the optional size argument; the plugin passes a size only
for the string field. -/
def RecordInfo.add_field (r : RecordInfo) (n : String) (t : FieldType)
    (sz : Option Nat) : RecordInfo :=
  RecordInfo.mk (r.fields ++ [Field.mk n t sz])

def RecordInfo.num_fields (r : RecordInfo) : Nat := r.fields.length

/-- A resolved field descriptor: the field and its position in its record. -/
structure FieldRef where
  idx : Nat
  field : Field
deriving DecidableEq

def RecordInfo.get_field_num (r : RecordInfo) (n : String) : Option Nat :=
  r.fields.findIdx? (fun f => f.name == n)

def RecordInfo.getIdx (r : RecordInfo) (i : Nat) : Option FieldRef :=
  (r.fields.get? i).map (fun f => FieldRef.mk i f)

/-- The combination record_info[record_info.get_field_num(name)] used at
lines 158-165. -/
def RecordInfo.getFieldRef (r : RecordInfo) (n : String) : Option FieldRef :=
  (r.get_field_num n).bind r.getIdx

inductive CellVal
  | null
  | str (s : String)
  | num (q : ℚ)
deriving DecidableEq

structure RecordCreator where
  info : RecordInfo
  cells : List CellVal
deriving DecidableEq

def RecordInfo.construct_record_creator (r : RecordInfo) : RecordCreator :=
  RecordCreator.mk r (List.replicate r.fields.length CellVal.null)

def RecordCreator.reset (rc : RecordCreator) : RecordCreator :=
  RecordCreator.mk rc.info (List.replicate rc.info.fields.length CellVal.null)

def RecordCreator.finalize_record (rc : RecordCreator) : List CellVal := rc.cells

structure RecordCopier where
  dst : RecordInfo
  src : RecordInfo
  mappings : List (Nat × Nat)
deriving DecidableEq

def RecordCopier.add (rc : RecordCopier) (dstIdx srcIdx : Nat) : RecordCopier :=
  RecordCopier.mk rc.dst rc.src (rc.mappings ++ [(dstIdx, srcIdx)])

def RecordCopier.done_adding (rc : RecordCopier) : RecordCopier := rc

def RecordCopier.copy (rc : RecordCopier) (creator : RecordCreator)
    (in_record : List CellVal) : RecordCreator :=
  rc.mappings.foldl
    (fun cr m => RecordCreator.mk cr.info (cr.cells.set m.1 (in_record.getD m.2 CellVal.null)))
    creator

def FieldRef.get_as_string (f : FieldRef) (rec : List CellVal) : Option String :=
  match rec.getD f.idx CellVal.null with
  | CellVal.null => none
  | CellVal.str s => some s
  | CellVal.num q => some (toString q)

/-- The value a double field holds after set_from_string: the parsed number,
or null when the text does not parse. -/
def doubleCell (s : String) : CellVal :=
  match parseDec s with
  | some q => CellVal.num q
  | none => CellVal.null

/-- A sized string field truncates to its capacity. -/
def truncTo (k : Nat) (s : String) : String := String.mk (s.data.take k)

def FieldRef.set_from_string (f : FieldRef) (rc : RecordCreator) (s : String) :
    RecordCreator :=
  match f.field.ftype with
  | FieldType.v_wstring =>
    match f.field.size with
    | some k => RecordCreator.mk rc.info (rc.cells.set f.idx (CellVal.str (truncTo k s)))
    | none => RecordCreator.mk rc.info (rc.cells.set f.idx (CellVal.str s))
  | FieldType.double =>
    RecordCreator.mk rc.info (rc.cells.set f.idx (doubleCell s))
  | FieldType.other _ => RecordCreator.mk rc.info (rc.cells.set f.idx (CellVal.str s))

inductive MsgType
  | error
  | info
deriving DecidableEq

/-- One outgoing connection: the published metadata, every record offered via
push_record, and the records the downstream consumer accepted. -/
structure OutputAnchor where
  published : Option RecordInfo
  offers : List (List CellVal)
  accepted : List (List CellVal)
deriving DecidableEq

def freshAnchor : OutputAnchor := OutputAnchor.mk none [] []

def OutputAnchor.init (a : OutputAnchor) (r : RecordInfo) : OutputAnchor :=
  OutputAnchor.mk (some r) a.offers a.accepted

/-- push_record: the downstream acceptance policy decides the Bool the plugin
sees; the offered record is recorded either way. -/
def OutputAnchor.push_record (a : OutputAnchor) (accept : List CellVal → Bool)
    (rec : List CellVal) : OutputAnchor × Bool :=
  (OutputAnchor.mk a.published (a.offers ++ [rec])
    (if accept rec then a.accepted ++ [rec] else a.accepted), accept rec)

/-! ## The analyzer and its textual rendering -/

/-- An exact decimal: mantissa over 10 ^ scale.  The analyzer rounds its
scores to 3 or 4 decimal places, so every score is such a value. -/
structure Dec where
  m : Int
  s : Nat
deriving DecidableEq

def Dec.toRat (d : Dec) : ℚ := (d.m : ℚ) / 10 ^ d.s

def Dec.pyStr (d : Dec) : List Char := pyFloatRepr d.m d.s

/-- The four scores of polarity_scores, in the dict's key insertion order:
neg, neu, pos, compound. -/
structure Scores where
  neg : Dec
  neu : Dec
  pos : Dec
  compound : Dec
deriving DecidableEq

/-- Python str of the polarity_scores dict (line 186): single-quoted keys in
insertion order, ": " after each key, ", " between items. -/
def scoresChars (sc : Scores) : List Char :=
  "\x7b'neg': ".data ++ sc.neg.pyStr ++ ", 'neu': ".data ++ sc.neu.pyStr ++
    ", 'pos': ".data ++ sc.pos.pyStr ++ ", 'compound': ".data ++
    sc.compound.pyStr ++ "\x7d".data

def strOfScores (sc : Scores) : String := String.mk (scoresChars sc)

/-! ## The plugin -/

/-- A plugin attribute that holds a field-name string after construction and
is reassigned to a resolved field descriptor by ii_init (lines 158-162). -/
inductive AttrVal
  | name (s : String)
  | fieldRef (f : FieldRef)
deriving DecidableEq

/-- The Python exceptions that can escape the plugin callbacks. -/
inductive PyError
  | attributeError (s : String)
  | typeError (s : String)
  | fieldNotFound (s : String)
  | unboundLocal (s : String)
  | indexError (s : String)
deriving DecidableEq

structure AyxPlugin where
  n_tool_id : Nat
  Sentiment_score : AttrVal
  data_type : FieldType
  data_size : Nat
  Negative_Score : AttrVal
  data_type_double : FieldType
  Neutral_Score : AttrVal
  Positive_Score : AttrVal
  Compound_Score : AttrVal
  field_selection : Option (Option String)
  input_field : Option FieldRef
  output_anchor : Option OutputAnchor
  messages : List (Nat × MsgType × String)
deriving DecidableEq

/-- The AyxPlugin constructor (lines 19-41).  field_selection, input_field
and output_anchor model Python attributes that are not yet assigned. -/
def mkAyxPlugin (tid : Nat) : AyxPlugin where
  n_tool_id := tid
  Sentiment_score := AttrVal.name "Sentiment_Output"
  data_type := FieldType.v_wstring
  data_size := 100
  Negative_Score := AttrVal.name "Negative_Score"
  data_type_double := FieldType.double
  Neutral_Score := AttrVal.name "Neutral_Score"
  Positive_Score := AttrVal.name "Positive_Score"
  Compound_Score := AttrVal.name "Compound_Score"
  field_selection := none
  input_field := none
  output_anchor := none
  messages := []

/-- Element lookup in the parsed configuration XML: the first child with the
given tag, with its text content (none when the element is empty). -/
def xmlFind (xml : List (String × Option String)) (tag : String) :
    Option (Option String) :=
  (xml.find? (fun e => e.1 == tag)).map (fun e => e.2)

/-- pi_init (lines 43-57): if FieldSelect is found its text becomes the field
selection, otherwise an error message is emitted; either way the output
anchor is acquired afterwards. -/
def AyxPlugin.pi_init (p : AyxPlugin)
    (str_xml : List (String × Option String)) : AyxPlugin :=
  let p1 :=
    match xmlFind str_xml "FieldSelect" with
    | some t => { p with field_selection := some t }
    | none =>
      { p with messages :=
          p.messages ++ [(p.n_tool_id, MsgType.error, "Please select field to analyze")] }
  { p1 with output_anchor := some freshAnchor }

/-- The AyxPlugin class defines no method or attribute named xmsg, so the
evaluation of self.xmsg at line 87 raises AttributeError. -/
def AyxPlugin.xmsg_attr : Except PyError (String → String) :=
  Except.error (PyError.attributeError "xmsg")

/-- pi_push_all_records (lines 80-88): the arguments of output_message are
evaluated first, so the missing xmsg attribute aborts the call before any
message reaches the engine. -/
def AyxPlugin.pi_push_all_records (p : AyxPlugin) (n_record_limit : Int) :
    AyxPlugin × Except PyError Bool :=
  match AyxPlugin.xmsg_attr with
  | Except.error e => (p, Except.error e)
  | Except.ok f =>
    ({ p with messages :=
        p.messages ++ [(p.n_tool_id, MsgType.error, f "Missing Incoming Connection")] },
      Except.ok false)

/-- IncomingInterface state: the parent plugin and the two custom properties
of lines 116-117. -/
structure IIState where
  parent : AyxPlugin
  record_creator : Option RecordCreator
  record_copier : Option RecordCopier
deriving DecidableEq

/-- The IncomingInterface constructor (lines 106-117), as built by
pi_add_incoming_connection (line 69). -/
def mkIncomingInterface (parent : AyxPlugin) : IIState :=
  IIState.mk parent none none

/-- ii_init (lines 119-167).  The five add_field calls take their names from
the parent attributes; state changes and the publication to the output anchor
happen in source order, so the state at each failure point is returned next
to the escaping exception. -/
def IIState.ii_init (st : IIState) (record_info_in : RecordInfo) :
    IIState × Except PyError Bool :=
  match st.parent.Sentiment_score, st.parent.Negative_Score, st.parent.Neutral_Score,
      st.parent.Positive_Score, st.parent.Compound_Score with
  | AttrVal.name nSent, AttrVal.name nNeg, AttrVal.name nNeu, AttrVal.name nPos,
      AttrVal.name nCom =>
    let record_info_out :=
      ((((record_info_in.clone.add_field nSent st.parent.data_type
        (some st.parent.data_size)).add_field nNeg st.parent.data_type_double
        none).add_field nNeu st.parent.data_type_double none).add_field nPos
        st.parent.data_type_double none).add_field nCom st.parent.data_type_double none
    match st.parent.output_anchor with
    | none => (st, Except.error (PyError.attributeError "output_anchor"))
    | some anchor =>
      let parent1 := { st.parent with output_anchor := some (anchor.init record_info_out) }
      let creator := record_info_out.construct_record_creator
      let copier :=
        (((List.range record_info_in.num_fields).foldl (fun c i => c.add i i)
          (RecordCopier.mk record_info_out record_info_in [])).done_adding)
      let st1 : IIState := IIState.mk parent1 (some creator) (some copier)
      match record_info_out.getFieldRef nSent with
      | none => (st1, Except.error (PyError.fieldNotFound nSent))
      | some fSent =>
        let st2 : IIState :=
          { st1 with parent := { st1.parent with Sentiment_score := AttrVal.fieldRef fSent } }
        match record_info_out.getFieldRef nNeg with
        | none => (st2, Except.error (PyError.fieldNotFound nNeg))
        | some fNeg =>
          let st3 : IIState :=
            { st2 with parent := { st2.parent with Negative_Score := AttrVal.fieldRef fNeg } }
          match record_info_out.getFieldRef nNeu with
          | none => (st3, Except.error (PyError.fieldNotFound nNeu))
          | some fNeu =>
            let st4 : IIState :=
              { st3 with parent := { st3.parent with Neutral_Score := AttrVal.fieldRef fNeu } }
            match record_info_out.getFieldRef nPos with
            | none => (st4, Except.error (PyError.fieldNotFound nPos))
            | some fPos =>
              let st5 : IIState :=
                { st4 with parent := { st4.parent with Positive_Score := AttrVal.fieldRef fPos } }
              match record_info_out.getFieldRef nCom with
              | none => (st5, Except.error (PyError.fieldNotFound nCom))
              | some fCom =>
                let st6 : IIState :=
                  { st5 with parent :=
                    { st5.parent with Compound_Score := AttrVal.fieldRef fCom } }
                match st6.parent.field_selection with
                | none => (st6, Except.error (PyError.attributeError "field_selection"))
                | some none => (st6, Except.error (PyError.typeError "field name must be str"))
                | some (some sel) =>
                  match record_info_out.getFieldRef sel with
                  | none => (st6, Except.error (PyError.fieldNotFound sel))
                  | some fIn =>
                    ({ st6 with parent := { st6.parent with input_field := some fIn } },
                      Except.ok true)
  | _, _, _, _, _ => (st, Except.error (PyError.typeError "field name must be str"))

/-- ii_push_record (lines 169-207), with the external analyzer and the
downstream acceptance policy as parameters.  In the null branch out_record
was never assigned, so reaching line 204 raises UnboundLocalError. -/
def IIState.ii_push_record (analyser : String → Scores)
    (accept : List CellVal → Bool) (st : IIState) (in_record : List CellVal) :
    IIState × Except PyError Bool :=
  match st.record_creator, st.record_copier with
  | some rc0, some copier =>
    let rc2 := copier.copy rc0.reset in_record
    match st.parent.input_field with
    | none =>
      (IIState.mk st.parent (some rc2) (some copier),
        Except.error (PyError.attributeError "input_field"))
    | some inputField =>
      match inputField.get_as_string in_record with
      | some sentence =>
        let output := strOfScores (analyser sentence)
        let values := findall output
        match values.get? 0, values.get? 1, values.get? 2, values.get? 3 with
        | some negative, some neutral, some positive, some compound =>
          match st.parent.Sentiment_score, st.parent.Negative_Score,
              st.parent.Neutral_Score, st.parent.Positive_Score,
              st.parent.Compound_Score with
          | AttrVal.fieldRef gSent, AttrVal.fieldRef gNeg, AttrVal.fieldRef gNeu,
              AttrVal.fieldRef gPos, AttrVal.fieldRef gCom =>
            let rc7 :=
              gCom.set_from_string
                (gPos.set_from_string
                  (gNeu.set_from_string
                    (gNeg.set_from_string
                      (gSent.set_from_string rc2 output) negative) neutral) positive)
                compound
            let out_record := rc7.finalize_record
            match st.parent.output_anchor with
            | none =>
              (IIState.mk st.parent (some rc7) (some copier),
                Except.error (PyError.attributeError "output_anchor"))
            | some anchor =>
              let pr := anchor.push_record accept out_record
              let st1 : IIState :=
                IIState.mk { st.parent with output_anchor := some pr.1 }
                  (some rc7) (some copier)
              (st1, Except.ok pr.2)
          | _, _, _, _, _ =>
            (IIState.mk st.parent (some rc2) (some copier),
              Except.error (PyError.attributeError "set_from_string"))
        | _, _, _, _ =>
          (IIState.mk st.parent (some rc2) (some copier),
            Except.error (PyError.indexError "list index out of range"))
      | none =>
        (IIState.mk st.parent (some rc2) (some copier),
          Except.error (PyError.unboundLocal "out_record"))
  | _, _ => (st, Except.error (PyError.attributeError "record_creator"))

/-- Modelled from the spec (sections 5 and 4.1 step 5): the host engine
delivers rows one at a time, synchronously, and stops the stream at the first
failed or erroring delivery; it never retries. -/
def runRows (analyser : String → Scores) (accept : List CellVal → Bool) :
    IIState → List (List CellVal) → IIState × Except PyError Bool
  | st, [] => (st, Except.ok true)
  | st, r :: rs =>
    match IIState.ii_push_record analyser accept st r with
    | (st1, Except.ok true) => runRows analyser accept st1 rs
    | (st1, e) => (st1, e)

/-- Modelled from the spec (section 5's lifecycle): construction, pi_init,
pi_add_incoming_connection, ii_init, then the row deliveries; the host pushes
no row when schema negotiation fails. -/
def pipelineRun (analyser : String → Scores) (accept : List CellVal → Bool)
    (tid : Nat) (str_xml : List (String × Option String))
    (record_info_in : RecordInfo) (rows : List (List CellVal)) :
    IIState × Except PyError Bool :=
  let st0 := mkIncomingInterface ((mkAyxPlugin tid).pi_init str_xml)
  match st0.ii_init record_info_in with
  | (st1, Except.ok _) => runRows analyser accept st1 rows
  | (st1, e) => (st1, e)

/-- The records offered downstream so far. -/
def offersOf (st : IIState) : List (List CellVal) :=
  match st.parent.output_anchor with
  | some a => a.offers
  | none => []

/-- The records the downstream consumer accepted so far. -/
def acceptedOf (st : IIState) : List (List CellVal) :=
  match st.parent.output_anchor with
  | some a => a.accepted
  | none => []

/-- The user-visible messages emitted so far. -/
def messagesOf (st : IIState) : List (Nat × MsgType × String) := st.parent.messages

/-! ### Schema lookup lemmas -/

theorem findIdx?_append_right_none {p : Field → Bool} {l1 l2 : List Field}
    (h : ∀ x ∈ l1, p x = false) :
    (l1 ++ l2).findIdx? p = (l2.findIdx? p).map (fun i => i + l1.length) := by
  induction l1 with
  | nil => simp
  | cons a t ih =>
    have hpa : p a = false := h a (List.mem_cons_self a t)
    rw [List.cons_append, List.findIdx?_cons]
    simp only [hpa, Bool.false_eq_true, if_false, List.findIdx?_start_succ]
    rw [ih (fun x hx => h x (List.mem_cons_of_mem a hx))]
    cases l2.findIdx? p with
    | none => rfl
    | some k =>
      simp only [Option.map_some', Option.map_map, Function.comp_apply, List.length_cons]
      rw [Option.some.injEq]
      omega

theorem findIdx?_append_left_some {p : Field → Bool} {l1 l2 : List Field} {i : Nat}
    (h : l1.findIdx? p = some i) : (l1 ++ l2).findIdx? p = some i := by
  induction l1 generalizing i with
  | nil => cases h
  | cons a t ih =>
    rw [List.findIdx?_cons] at h
    rw [List.cons_append, List.findIdx?_cons]
    by_cases hpa : p a = true
    · simp only [hpa, if_true] at h ⊢
      exact h
    · simp only [hpa, Bool.false_eq_true, if_false, List.findIdx?_start_succ,
        Option.map_eq_some'] at h ⊢
      obtain ⟨k, hk, rfl⟩ := h
      exact ⟨k, ih hk, rfl⟩

/-- The five fields ii_init appends, in order, with their types and sizes. -/
def fiveFields : List Field :=
  [Field.mk "Sentiment_Output" FieldType.v_wstring (some 100),
   Field.mk "Negative_Score" FieldType.double none,
   Field.mk "Neutral_Score" FieldType.double none,
   Field.mk "Positive_Score" FieldType.double none,
   Field.mk "Compound_Score" FieldType.double none]

/-- The Output Schema: the Input Schema followed by the five new fields. -/
def outInfo (rin : RecordInfo) : RecordInfo := RecordInfo.mk (rin.fields ++ fiveFields)

/-- The spec's schema invariant instantiated for this plugin: the input field
names stay clear of the five appended names. -/
def avoidsSentimentNames (rin : RecordInfo) : Prop :=
  ∀ f ∈ rin.fields, f.name ≠ "Sentiment_Output" ∧ f.name ≠ "Negative_Score" ∧
    f.name ≠ "Neutral_Score" ∧ f.name ≠ "Positive_Score" ∧ f.name ≠ "Compound_Score"

instance (rin : RecordInfo) : Decidable (avoidsSentimentNames rin) := by
  unfold avoidsSentimentNames
  infer_instance

/-- The add_field chain of lines 127-136 produces exactly the Output Schema. -/
theorem add_field_chain (rin : RecordInfo) :
    ((((rin.clone.add_field "Sentiment_Output" FieldType.v_wstring
      (some 100)).add_field "Negative_Score" FieldType.double
      none).add_field "Neutral_Score" FieldType.double none).add_field "Positive_Score"
      FieldType.double none).add_field "Compound_Score" FieldType.double none =
      outInfo rin := by
  simp [RecordInfo.clone, RecordInfo.add_field, outInfo, fiveFields]

theorem getFieldRef_out_new {rin : RecordInfo} {nm : String} {k : Nat} {fld : Field}
    (hnot : ∀ f ∈ rin.fields, f.name ≠ nm)
    (hk : fiveFields.findIdx? (fun f => f.name == nm) = some k)
    (hf : fiveFields.get? k = some fld) :
    (outInfo rin).getFieldRef nm = some (FieldRef.mk (rin.fields.length + k) fld) := by
  have hfalse : ∀ f ∈ rin.fields, (f.name == nm) = false := by
    intro f hfm
    exact beq_eq_false_iff_ne.mpr (hnot f hfm)
  rw [RecordInfo.getFieldRef, RecordInfo.get_field_num]
  show ((rin.fields ++ fiveFields).findIdx? (fun f => f.name == nm)).bind
    (outInfo rin).getIdx = _
  rw [findIdx?_append_right_none hfalse, hk, Option.map_some', Option.some_bind]
  rw [RecordInfo.getIdx]
  show ((rin.fields ++ fiveFields).get? (k + rin.fields.length)).map _ = _
  rw [List.get?_append_right (by omega)]
  have hsub : k + rin.fields.length - rin.fields.length = k := by omega
  rw [hsub, hf, Option.map_some', Option.some.injEq, FieldRef.mk.injEq]
  exact ⟨Nat.add_comm k rin.fields.length, rfl⟩

theorem getFieldRef_out_sel {rin : RecordInfo} {sel : String} {j : Nat} {fld : Field}
    (hj : rin.fields.findIdx? (fun f => f.name == sel) = some j)
    (hf : rin.fields.get? j = some fld) :
    (outInfo rin).getFieldRef sel = some (FieldRef.mk j fld) := by
  have hjlt : j < rin.fields.length := by
    rw [List.findIdx?_eq_some_iff_findIdx_eq] at hj
    exact hj.1
  rw [RecordInfo.getFieldRef, RecordInfo.get_field_num]
  show ((rin.fields ++ fiveFields).findIdx? (fun f => f.name == sel)).bind
    (outInfo rin).getIdx = _
  rw [findIdx?_append_left_some hj, Option.some_bind, RecordInfo.getIdx]
  show ((rin.fields ++ fiveFields).get? j).map _ = _
  rw [List.get?_append hjlt, hf, Option.map_some']

/-! ### Record copy lemmas -/

theorem foldl_add_mappings (l : List Nat) (c : RecordCopier) :
    l.foldl (fun c i => c.add i i) c =
      RecordCopier.mk c.dst c.src (c.mappings ++ l.map (fun i => (i, i))) := by
  induction l generalizing c with
  | nil => simp
  | cons a t ih =>
    rw [List.foldl_cons, ih, List.map_cons]
    simp [RecordCopier.add, List.append_assoc]

/-- The mapping loop of lines 148-153 produces the identity mapping on the
input positions. -/
theorem copier_built (rin out : RecordInfo) :
    ((List.range rin.num_fields).foldl (fun c i => c.add i i)
      (RecordCopier.mk out rin [])).done_adding =
      RecordCopier.mk out rin ((List.range rin.num_fields).map (fun i => (i, i))) := by
  rw [RecordCopier.done_adding, foldl_add_mappings]
  simp

/-- Copying through the identity mapping on the first n positions overwrites
the first n cells with the row values and keeps the rest. -/
theorem copy_range_take (n : Nat) : ∀ (cells row : List CellVal) (dst src : RecordInfo),
    n ≤ cells.length → n ≤ row.length →
    (RecordCopier.mk dst src ((List.range n).map (fun i => (i, i)))).copy
      (RecordCreator.mk dst cells) row =
      RecordCreator.mk dst (row.take n ++ cells.drop n) := by
  induction n with
  | zero =>
    intro cells row dst src h1 h2
    simp [RecordCopier.copy]
  | succ m ih =>
    intro cells row dst src h1 h2
    have hm1 : m ≤ cells.length := by omega
    have hm2 : m ≤ row.length := by omega
    have hmc : m < cells.length := by omega
    have hmr : m < row.length := by omega
    rw [List.range_succ, List.map_append]
    show (List.map (fun i => (i, i)) (List.range m) ++ [(m, m)]).foldl _ _ = _
    rw [List.foldl_append]
    have hprev := ih cells row dst src hm1 hm2
    rw [RecordCopier.copy] at hprev
    rw [hprev]
    show RecordCreator.mk dst
      ((row.take m ++ cells.drop m).set m (row.getD m CellVal.null)) = _
    have hlen : (row.take m).length = m := by
      rw [List.length_take]
      omega
    rw [List.set_append_right _ _ (by omega)]
    rw [hlen]
    have hsub : m - m = 0 := by omega
    rw [hsub]
    rw [List.drop_eq_getElem_cons hmc, List.set_cons_zero]
    rw [List.getD_eq_getElem _ _ hmr]
    have hge : row[m]? = some row[m] := List.getElem?_eq_getElem hmr
    rw [List.take_succ, hge, Option.toList_some, List.append_assoc]
    rfl

/-- Setting a cell past the copied row lands in the appended suffix. -/
theorem set_past_row (row rest : List CellVal) (k : Nat) (v : CellVal) :
    (row ++ rest).set (row.length + k) v = row ++ rest.set k v := by
  rw [List.set_append_right _ _ (by omega)]
  have hsub : row.length + k - row.length = k := by omega
  rw [hsub]

/-! ### The state after schema negotiation -/

/-- Resolved references to the five new fields, past the n input fields. -/
def sentRef (n : Nat) : FieldRef :=
  FieldRef.mk (n + 0) (Field.mk "Sentiment_Output" FieldType.v_wstring (some 100))

def negRef (n : Nat) : FieldRef :=
  FieldRef.mk (n + 1) (Field.mk "Negative_Score" FieldType.double none)

def neuRef (n : Nat) : FieldRef :=
  FieldRef.mk (n + 2) (Field.mk "Neutral_Score" FieldType.double none)

def posRef (n : Nat) : FieldRef :=
  FieldRef.mk (n + 3) (Field.mk "Positive_Score" FieldType.double none)

def comRef (n : Nat) : FieldRef :=
  FieldRef.mk (n + 4) (Field.mk "Compound_Score" FieldType.double none)

/-- The plugin state after a successful ii_init on a freshly constructed and
configured instance. -/
def goodParent (tid : Nat) (sel : String) (rin : RecordInfo) (j : Nat)
    (fld : Field) : AyxPlugin where
  n_tool_id := tid
  Sentiment_score := AttrVal.fieldRef (sentRef rin.fields.length)
  data_type := FieldType.v_wstring
  data_size := 100
  Negative_Score := AttrVal.fieldRef (negRef rin.fields.length)
  data_type_double := FieldType.double
  Neutral_Score := AttrVal.fieldRef (neuRef rin.fields.length)
  Positive_Score := AttrVal.fieldRef (posRef rin.fields.length)
  Compound_Score := AttrVal.fieldRef (comRef rin.fields.length)
  field_selection := some (some sel)
  input_field := some (FieldRef.mk j fld)
  output_anchor := some (OutputAnchor.mk (some (outInfo rin)) [] [])
  messages := []

/-- The incoming-interface state after a successful ii_init. -/
def goodState (tid : Nat) (sel : String) (rin : RecordInfo) (j : Nat)
    (fld : Field) : IIState :=
  IIState.mk (goodParent tid sel rin j fld)
    (some ((outInfo rin).construct_record_creator))
    (some (RecordCopier.mk (outInfo rin) rin
      ((List.range rin.num_fields).map (fun i => (i, i)))))

/-- ii_init on a fresh instance whose configuration names a field of the
input schema succeeds and produces exactly the post-negotiation state. -/
theorem ii_init_spec {tid : Nat} {xml : List (String × Option String)}
    {rin : RecordInfo} {sel : String} {j : Nat} {fld : Field}
    (hx : xmlFind xml "FieldSelect" = some (some sel))
    (ha : avoidsSentimentNames rin)
    (hj : rin.fields.findIdx? (fun f => f.name == sel) = some j)
    (hf : rin.fields.get? j = some fld) :
    (mkIncomingInterface ((mkAyxPlugin tid).pi_init xml)).ii_init rin =
      (goodState tid sel rin j fld, Except.ok true) := by
  have h1 : (outInfo rin).getFieldRef "Sentiment_Output" =
      some (sentRef rin.fields.length) :=
    @getFieldRef_out_new rin "Sentiment_Output" 0
      (Field.mk "Sentiment_Output" FieldType.v_wstring (some 100))
      (fun f hm => (ha f hm).1) (by decide) rfl
  have h2 : (outInfo rin).getFieldRef "Negative_Score" =
      some (negRef rin.fields.length) :=
    @getFieldRef_out_new rin "Negative_Score" 1
      (Field.mk "Negative_Score" FieldType.double none)
      (fun f hm => (ha f hm).2.1) (by decide) rfl
  have h3 : (outInfo rin).getFieldRef "Neutral_Score" =
      some (neuRef rin.fields.length) :=
    @getFieldRef_out_new rin "Neutral_Score" 2
      (Field.mk "Neutral_Score" FieldType.double none)
      (fun f hm => (ha f hm).2.2.1) (by decide) rfl
  have h4 : (outInfo rin).getFieldRef "Positive_Score" =
      some (posRef rin.fields.length) :=
    @getFieldRef_out_new rin "Positive_Score" 3
      (Field.mk "Positive_Score" FieldType.double none)
      (fun f hm => (ha f hm).2.2.2.1) (by decide) rfl
  have h5 : (outInfo rin).getFieldRef "Compound_Score" =
      some (comRef rin.fields.length) :=
    @getFieldRef_out_new rin "Compound_Score" 4
      (Field.mk "Compound_Score" FieldType.double none)
      (fun f hm => (ha f hm).2.2.2.2) (by decide) rfl
  have hsel : (outInfo rin).getFieldRef sel = some (FieldRef.mk j fld) :=
    getFieldRef_out_sel hj hf
  simp only [mkIncomingInterface, AyxPlugin.pi_init, mkAyxPlugin, hx,
    IIState.ii_init, add_field_chain, copier_built, OutputAnchor.init, freshAnchor,
    h1, h2, h3, h4, h5, hsel, goodState, goodParent, sentRef, negRef, neuRef,
    posRef, comRef]

/-! ### The composite label and its scan -/

theorem headNotDigit_cons {c : Char} {t : List Char} (h : c.isDigit = false) :
    headNotDigit (c :: t) := by
  intro x hx
  rw [List.head?_cons, Option.some.injEq] at hx
  rw [← hx]
  exact h

/-- Python float reprs are numeric tokens of the pattern. -/
theorem pyFloatRepr_token (m : Int) (s : Nat) : IsNumToken (pyFloatRepr m s) := by
  refine ⟨if m < 0 then ['-'] else [], natDigits (m.natAbs / 10 ^ s),
    fracRepr (m.natAbs % 10 ^ s) s, ?_, natDigits_ne_nil _, natDigits_digits _,
    fracRepr_ne_nil _ _, fracRepr_digits _ _, ?_⟩
  · by_cases hm : m < 0 <;> simp [hm]
  · rfl

/-- re.findall over str(polarity_scores dict) returns exactly the four score
reprs, in dict order. -/
theorem listFindall_scores (sc : Scores) :
    listFindall (scoresChars sc) =
      [sc.neg.pyStr, sc.neu.pyStr, sc.pos.pyStr, sc.compound.pyStr] := by
  rw [scoresChars]
  simp only [Dec.pyStr, List.append_assoc]
  rw [@listFindall_sep ("\x7b'neg': ".data) _ (by decide)]
  rw [listFindall_token (pyFloatRepr_token _ _) (by exact headNotDigit_cons (by decide))]
  rw [@listFindall_sep (", 'neu': ".data) _ (by decide)]
  rw [listFindall_token (pyFloatRepr_token _ _) (by exact headNotDigit_cons (by decide))]
  rw [@listFindall_sep (", 'pos': ".data) _ (by decide)]
  rw [listFindall_token (pyFloatRepr_token _ _) (by exact headNotDigit_cons (by decide))]
  rw [@listFindall_sep (", 'compound': ".data) _ (by decide)]
  rw [listFindall_token (pyFloatRepr_token _ _) (by exact headNotDigit_cons (by decide))]
  have hend : listFindall "\x7d".data = [] := by decide
  rw [hend]

/-- findall over the composite label string. -/
theorem findall_strOfScores (sc : Scores) :
    findall (strOfScores sc) =
      [String.mk sc.neg.pyStr, String.mk sc.neu.pyStr, String.mk sc.pos.pyStr,
       String.mk sc.compound.pyStr] := by
  rw [findall, strOfScores]
  show (listFindall (scoresChars sc)).map _ = _
  rw [listFindall_scores]
  rfl

/-- The numeric cell written from a score repr carries exactly the score. -/
theorem doubleCell_pyStr (d : Dec) :
    doubleCell (String.mk d.pyStr) = CellVal.num d.toRat := by
  rw [doubleCell, Dec.pyStr, parseDec_pyFloatRepr, Dec.toRat]

/-! ### The per-row transformation on the post-negotiation state -/

theorem drop_replicate_cell (n k : Nat) (a : CellVal) :
    (List.replicate (n + k) a).drop n = List.replicate k a := by
  induction n with
  | zero => rw [Nat.zero_add, List.drop_zero]
  | succ m ih =>
    have h1 : m + 1 + k = (m + k) + 1 := by omega
    rw [h1, List.replicate_succ, List.drop_succ_cons, ih]

/-- The five cells the transformation appends for the scores sc. -/
def sentimentCells (sc : Scores) : List CellVal :=
  [CellVal.str (truncTo 100 (strOfScores sc)),
   doubleCell (String.mk sc.neg.pyStr),
   doubleCell (String.mk sc.neu.pyStr),
   doubleCell (String.mk sc.pos.pyStr),
   doubleCell (String.mk sc.compound.pyStr)]

/-- The state after pushing one non-null row from the post-negotiation state:
the anchor has offered the output record, which was accepted or not. -/
def pushedState (tid : Nat) (sel : String) (rin : RecordInfo) (j : Nat)
    (fld : Field) (out_record : List CellVal) (ok : Bool) : IIState :=
  let a := OutputAnchor.mk (some (outInfo rin)) [out_record] (if ok then [out_record] else [])
  IIState.mk
    { (goodParent tid sel rin j fld) with output_anchor := some a }
    (some (RecordCreator.mk (outInfo rin) out_record))
    (some (RecordCopier.mk (outInfo rin) rin
      ((List.range rin.num_fields).map (fun i => (i, i)))))

/-- ii_push_record on the post-negotiation state, for a conforming row whose
configured field holds a string: the original cells are copied verbatim, the
five sentiment cells are appended, and the row is offered downstream once. -/
theorem ii_push_record_spec {tid : Nat} {sel : String} {rin : RecordInfo}
    {j : Nat} {fld : Field} (analyser : String → Scores)
    (accept : List CellVal → Bool) {row : List CellVal} {sentence : String}
    (hn : row.length = rin.fields.length)
    (hgd : row.getD j CellVal.null = CellVal.str sentence) :
    IIState.ii_push_record analyser accept (goodState tid sel rin j fld) row =
      (pushedState tid sel rin j fld (row ++ sentimentCells (analyser sentence))
        (accept (row ++ sentimentCells (analyser sentence))),
       Except.ok (accept (row ++ sentimentCells (analyser sentence)))) := by
  have hn5 : (outInfo rin).fields.length = rin.num_fields + 5 := by
    simp [outInfo, fiveFields, RecordInfo.num_fields, List.length_append]
  have hnum : rin.num_fields = row.length := by
    rw [RecordInfo.num_fields, hn]
  have hcopy : (RecordCopier.mk (outInfo rin) rin
      ((List.range rin.num_fields).map (fun i => (i, i)))).copy
      (RecordCreator.mk (outInfo rin)
        (List.replicate ((outInfo rin).fields.length) CellVal.null)) row =
      RecordCreator.mk (outInfo rin) (row ++ List.replicate 5 CellVal.null) := by
    rw [copy_range_take rin.num_fields _ row _ rin
      (by rw [List.length_replicate]; omega) (by omega)]
    rw [hn5, hnum]
    rw [drop_replicate_cell row.length 5 CellVal.null, List.take_length]
  have hfind := findall_strOfScores (analyser sentence)
  simp only [IIState.ii_push_record, goodState, goodParent, RecordCreator.reset,
    RecordInfo.construct_record_creator]
  rw [hcopy]
  simp only [FieldRef.get_as_string, hgd, hfind, List.get?]
  simp only [FieldRef.set_from_string, sentRef, negRef, neuRef, posRef, comRef,
    doubleCell_pyStr]
  rw [← hn]
  simp only [set_past_row, List.replicate_succ, List.replicate_zero,
    List.set_cons_zero, List.set_cons_succ]
  simp only [OutputAnchor.push_record, RecordCreator.finalize_record,
    pushedState, goodParent, sentimentCells, doubleCell_pyStr,
    List.nil_append, hn, RecordInfo.num_fields]
  by_cases hacc : accept (row ++
      [CellVal.str (truncTo 100 (strOfScores (analyser sentence))),
       CellVal.num (analyser sentence).neg.toRat,
       CellVal.num (analyser sentence).neu.toRat,
       CellVal.num (analyser sentence).pos.toRat,
       CellVal.num (analyser sentence).compound.toRat]) = true
  · simp [hacc, sentRef, negRef, neuRef, posRef, comRef]
  · simp [hacc, sentRef, negRef, neuRef, posRef, comRef]

/-! ## Claim theorems -/

theorem getFieldRef_out_isSome (rin : RecordInfo) (nm : String)
    (h : fiveFields.any (fun f => f.name == nm) = true) :
    ∃ fr, (outInfo rin).getFieldRef nm = some fr := by
  have hany : (outInfo rin).fields.any (fun f => f.name == nm) = true := by
    rw [outInfo]
    show (rin.fields ++ fiveFields).any _ = true
    rw [List.any_append, h, Bool.or_true]
  have hsome : ((outInfo rin).fields.findIdx? (fun f => f.name == nm)).isSome = true := by
    rw [List.findIdx?_isSome, hany]
  obtain ⟨i, hi⟩ := Option.isSome_iff_exists.mp hsome
  have hlt : i < (outInfo rin).fields.length := by
    rw [List.findIdx?_eq_some_iff_findIdx_eq] at hi
    exact hi.1
  refine ⟨FieldRef.mk i ((outInfo rin).fields.get ⟨i, hlt⟩), ?_⟩
  rw [RecordInfo.getFieldRef, RecordInfo.get_field_num, hi, Option.some_bind,
    RecordInfo.getIdx, List.get?_eq_get hlt, Option.map_some']

/-- C4: for every Input Schema received at schema negotiation, whatever the
configuration, the schema published to the output anchor is the Input
Schema's fields in order followed by the five sentiment fields with their
fixed names, types and sizes. -/
theorem output_schema_published (tid : Nat) (xml : List (String × Option String))
    (rin : RecordInfo) :
    ∃ a, (((mkIncomingInterface ((mkAyxPlugin tid).pi_init xml)).ii_init rin).1).parent.output_anchor
        = some a ∧
      a.published = some (RecordInfo.mk (rin.fields ++
        [Field.mk "Sentiment_Output" FieldType.v_wstring (some 100),
         Field.mk "Negative_Score" FieldType.double none,
         Field.mk "Neutral_Score" FieldType.double none,
         Field.mk "Positive_Score" FieldType.double none,
         Field.mk "Compound_Score" FieldType.double none])) := by
  cases hx : xmlFind xml "FieldSelect" with
  | none =>
    simp only [mkIncomingInterface, AyxPlugin.pi_init, mkAyxPlugin, hx,
      IIState.ii_init, add_field_chain, OutputAnchor.init, freshAnchor]
    repeat' split
    all_goals exact ⟨_, rfl, rfl⟩
  | some t =>
    simp only [mkIncomingInterface, AyxPlugin.pi_init, mkAyxPlugin, hx,
      IIState.ii_init, add_field_chain, OutputAnchor.init, freshAnchor]
    repeat' split
    all_goals exact ⟨_, rfl, rfl⟩

/-- C8: invoking pi_push_all_records does not report "Missing Incoming
Connection" and does not return False; the attribute lookup self.xmsg raises
AttributeError first, leaving the plugin state (and its messages) untouched. -/
theorem missing_connection_report_never_sent :
    (mkAyxPlugin 1).pi_push_all_records (-1) =
      (mkAyxPlugin 1, Except.error (PyError.attributeError "xmsg")) := rfl

/-- C2 counterexample: with a FieldSelect element present but empty, the
adapter surfaces no configuration error at all, stores the empty selection,
and acquires the output anchor; the claim's "absent or empty implies a
configuration error and no output anchor activity" is false on this input. -/
theorem empty_fieldselect_no_error :
    ((mkAyxPlugin 7).pi_init [("FieldSelect", none)]).messages = [] ∧
    ((mkAyxPlugin 7).pi_init [("FieldSelect", none)]).field_selection = some none ∧
    ((mkAyxPlugin 7).pi_init [("FieldSelect", none)]).output_anchor = some freshAnchor :=
  ⟨rfl, rfl, rfl⟩

/-- C2 amended: only a wholly absent FieldSelect element triggers the
configuration error message, and even then the output anchor is still
acquired and the callback continues; a present (possibly empty) FieldSelect
is stored as the selection with no error. -/
theorem pi_init_fieldselect (tid : Nat) (xml : List (String × Option String)) :
    (xmlFind xml "FieldSelect" = none →
      ((mkAyxPlugin tid).pi_init xml).messages =
        [(tid, MsgType.error, "Please select field to analyze")] ∧
      ((mkAyxPlugin tid).pi_init xml).output_anchor = some freshAnchor ∧
      ((mkAyxPlugin tid).pi_init xml).field_selection = none) ∧
    (∀ t, xmlFind xml "FieldSelect" = some t →
      ((mkAyxPlugin tid).pi_init xml).messages = [] ∧
      ((mkAyxPlugin tid).pi_init xml).output_anchor = some freshAnchor ∧
      ((mkAyxPlugin tid).pi_init xml).field_selection = some t) := by
  constructor
  · intro hx
    simp [AyxPlugin.pi_init, mkAyxPlugin, hx]
  · intro t hx
    simp [AyxPlugin.pi_init, mkAyxPlugin, hx]

theorem pi_init_fieldselect_witness :
    ((mkAyxPlugin 9).pi_init []).messages =
      [(9, MsgType.error, "Please select field to analyze")] ∧
    ((mkAyxPlugin 9).pi_init []).output_anchor = some freshAnchor ∧
    ((mkAyxPlugin 9).pi_init []).field_selection = none :=
  (pi_init_fieldselect 9 []).1 rfl

/-- A fixed stand-in for the external analyzer, used by concrete runs. -/
def analyserW : String → Scores :=
  fun _ => Scores.mk (Dec.mk 0 3) (Dec.mk 3 1) (Dec.mk 7 1) (Dec.mk 6486 4)

/-- A one-column input schema whose "comment" column is the configured text
field. -/
def rinW : RecordInfo :=
  RecordInfo.mk [Field.mk "comment" (FieldType.other "V_String") none]

/-- C1: on a row whose configured field is null, the run aborts with
UnboundLocalError (out_record is only assigned inside the non-null branch,
but line 204 reads it unconditionally), and no row is emitted downstream.
The claim says the row is passed through and the run does not abort. -/
theorem null_field_aborts_run :
    (pipelineRun analyserW (fun _ => true) 1 [("FieldSelect", some "comment")]
      rinW [[CellVal.null]]).2 = Except.error (PyError.unboundLocal "out_record") ∧
    offersOf (pipelineRun analyserW (fun _ => true) 1 [("FieldSelect", some "comment")]
      rinW [[CellVal.null]]).1 = [] :=
  ⟨rfl, rfl⟩

/-- C3 amended: when the configured field name resolves against neither the
input fields nor the five appended fields, schema negotiation fails with an
exception; no row is processed and nothing is offered downstream, but no
user-visible error message is emitted. -/
theorem unresolvable_field_fails_silently (analyser : String → Scores)
    (accept : List CellVal → Bool) (tid : Nat) (sel : String) (rin : RecordInfo)
    (rows : List (List CellVal))
    (hnone : (rin.fields ++ fiveFields).findIdx? (fun f => f.name == sel) = none) :
    (pipelineRun analyser accept tid [("FieldSelect", some sel)] rin rows).2 =
      Except.error (PyError.fieldNotFound sel) ∧
    offersOf (pipelineRun analyser accept tid [("FieldSelect", some sel)] rin rows).1 = [] ∧
    messagesOf (pipelineRun analyser accept tid [("FieldSelect", some sel)] rin rows).1 = [] := by
  obtain ⟨f1, h1⟩ := getFieldRef_out_isSome rin "Sentiment_Output" (by decide)
  obtain ⟨f2, h2⟩ := getFieldRef_out_isSome rin "Negative_Score" (by decide)
  obtain ⟨f3, h3⟩ := getFieldRef_out_isSome rin "Neutral_Score" (by decide)
  obtain ⟨f4, h4⟩ := getFieldRef_out_isSome rin "Positive_Score" (by decide)
  obtain ⟨f5, h5⟩ := getFieldRef_out_isSome rin "Compound_Score" (by decide)
  have hsel : (outInfo rin).getFieldRef sel = none := by
    rw [RecordInfo.getFieldRef, RecordInfo.get_field_num]
    show ((rin.fields ++ fiveFields).findIdx? (fun f => f.name == sel)).bind _ = none
    rw [hnone, Option.none_bind]
  have hx : xmlFind [("FieldSelect", some sel)] "FieldSelect" = some (some sel) := rfl
  simp only [pipelineRun, mkIncomingInterface, AyxPlugin.pi_init, mkAyxPlugin, hx,
    IIState.ii_init, add_field_chain, OutputAnchor.init, freshAnchor,
    h1, h2, h3, h4, h5, hsel, offersOf, messagesOf]
  exact ⟨trivial, trivial, trivial⟩

theorem unresolvable_field_fails_silently_witness :
    (pipelineRun analyserW (fun _ => true) 3 [("FieldSelect", some "address")]
      rinW [[CellVal.str "hi"]]).2 = Except.error (PyError.fieldNotFound "address") ∧
    offersOf (pipelineRun analyserW (fun _ => true) 3 [("FieldSelect", some "address")]
      rinW [[CellVal.str "hi"]]).1 = [] ∧
    messagesOf (pipelineRun analyserW (fun _ => true) 3 [("FieldSelect", some "address")]
      rinW [[CellVal.str "hi"]]).1 = [] :=
  unresolvable_field_fails_silently analyserW (fun _ => true) 3 "address" rinW
    [[CellVal.str "hi"]] (by decide)

/-- C3 counterexample: with the configured name "address" absent from the
schema, schema negotiation fails, yet the adapter emits no user-visible
error message, contradicting the claim that this failure is reported as one. -/
theorem unresolvable_field_no_message :
    (pipelineRun analyserW (fun _ => true) 4 [("FieldSelect", some "address")]
      rinW []).2 = Except.error (PyError.fieldNotFound "address") ∧
    messagesOf (pipelineRun analyserW (fun _ => true) 4 [("FieldSelect", some "address")]
      rinW []).1 = [] :=
  ⟨rfl, rfl⟩

/-- One full run over a single conforming, non-null row, in closed form. -/
theorem pipelineRun_single {tid : Nat} {xml : List (String × Option String)}
    {rin : RecordInfo} {sel : String} {j : Nat} {fld : Field}
    (analyser : String → Scores) (accept : List CellVal → Bool)
    {row : List CellVal} {sentence : String}
    (hx : xmlFind xml "FieldSelect" = some (some sel))
    (ha : avoidsSentimentNames rin)
    (hj : rin.fields.findIdx? (fun f => f.name == sel) = some j)
    (hf : rin.fields.get? j = some fld)
    (hn : row.length = rin.fields.length)
    (hgd : row.getD j CellVal.null = CellVal.str sentence) :
    pipelineRun analyser accept tid xml rin [row] =
      (pushedState tid sel rin j fld (row ++ sentimentCells (analyser sentence))
        (accept (row ++ sentimentCells (analyser sentence))),
       Except.ok (accept (row ++ sentimentCells (analyser sentence)))) := by
  simp only [pipelineRun]
  rw [ii_init_spec hx ha hj hf]
  show runRows analyser accept (goodState tid sel rin j fld) [row] = _
  rw [runRows, ii_push_record_spec analyser accept hn hgd]
  by_cases hacc : accept (row ++ sentimentCells (analyser sentence)) = true
  · rw [hacc]
    show runRows analyser accept _ [] = _
    rw [runRows]
  · have hfalse : accept (row ++ sentimentCells (analyser sentence)) = false := by
      revert hacc
      cases accept (row ++ sentimentCells (analyser sentence)) <;> simp
    rw [hfalse]

/-- C5: for a well-formed row whose configured text field is non-null, the
emitted output row carries the input row's values verbatim at the original
positions, in the same order. -/
theorem original_fields_verbatim {tid : Nat} {xml : List (String × Option String)}
    {rin : RecordInfo} {sel : String} {j : Nat} {fld : Field}
    (analyser : String → Scores) (accept : List CellVal → Bool)
    {row : List CellVal} {sentence : String}
    (hx : xmlFind xml "FieldSelect" = some (some sel))
    (ha : avoidsSentimentNames rin)
    (hj : rin.fields.findIdx? (fun f => f.name == sel) = some j)
    (hf : rin.fields.get? j = some fld)
    (hn : row.length = rin.fields.length)
    (hgd : row.getD j CellVal.null = CellVal.str sentence) :
    ∃ out, offersOf (pipelineRun analyser accept tid xml rin [row]).1 = [out] ∧
      out.take rin.fields.length = row ∧
      ∀ i, i < rin.fields.length → out.get? i = row.get? i := by
  rw [pipelineRun_single analyser accept hx ha hj hf hn hgd]
  refine ⟨row ++ sentimentCells (analyser sentence), rfl, ?_, ?_⟩
  · rw [← hn, List.take_left]
  · intro i hi
    rw [List.get?_append (by omega)]

/-- C6: for a well-formed row whose configured text field is non-null, the
Sentiment_Output cell holds the composite str of the analyzer's four-score
dict bounded to 100 characters, the four numeric cells hold the parses of
the first four numeric substrings re.findall extracts from that text, and
those parses equal the analyzer's four scores. -/
theorem composite_label_and_scores {tid : Nat} {xml : List (String × Option String)}
    {rin : RecordInfo} {sel : String} {j : Nat} {fld : Field}
    (analyser : String → Scores) (accept : List CellVal → Bool)
    {row : List CellVal} {sentence : String}
    (hx : xmlFind xml "FieldSelect" = some (some sel))
    (ha : avoidsSentimentNames rin)
    (hj : rin.fields.findIdx? (fun f => f.name == sel) = some j)
    (hf : rin.fields.get? j = some fld)
    (hn : row.length = rin.fields.length)
    (hgd : row.getD j CellVal.null = CellVal.str sentence) :
    ∃ out, offersOf (pipelineRun analyser accept tid xml rin [row]).1 = [out] ∧
      out.drop rin.fields.length =
        [CellVal.str (truncTo 100 (strOfScores (analyser sentence))),
         doubleCell ((findall (strOfScores (analyser sentence))).getD 0 ""),
         doubleCell ((findall (strOfScores (analyser sentence))).getD 1 ""),
         doubleCell ((findall (strOfScores (analyser sentence))).getD 2 ""),
         doubleCell ((findall (strOfScores (analyser sentence))).getD 3 "")] ∧
      doubleCell ((findall (strOfScores (analyser sentence))).getD 0 "") =
        CellVal.num (analyser sentence).neg.toRat ∧
      doubleCell ((findall (strOfScores (analyser sentence))).getD 1 "") =
        CellVal.num (analyser sentence).neu.toRat ∧
      doubleCell ((findall (strOfScores (analyser sentence))).getD 2 "") =
        CellVal.num (analyser sentence).pos.toRat ∧
      doubleCell ((findall (strOfScores (analyser sentence))).getD 3 "") =
        CellVal.num (analyser sentence).compound.toRat := by
  rw [pipelineRun_single analyser accept hx ha hj hf hn hgd]
  refine ⟨row ++ sentimentCells (analyser sentence), rfl, ?_, ?_, ?_, ?_, ?_⟩
  · rw [← hn, List.drop_left, sentimentCells, findall_strOfScores]
    rfl
  · rw [findall_strOfScores]
    exact doubleCell_pyStr (analyser sentence).neg
  · rw [findall_strOfScores]
    exact doubleCell_pyStr (analyser sentence).neu
  · rw [findall_strOfScores]
    exact doubleCell_pyStr (analyser sentence).pos
  · rw [findall_strOfScores]
    exact doubleCell_pyStr (analyser sentence).compound

/-- A two-column input schema for concrete runs. -/
def rin2W : RecordInfo :=
  RecordInfo.mk [Field.mk "id" (FieldType.other "Int32") none,
    Field.mk "comment" (FieldType.other "V_String") none]

/-- A concrete conforming row for rin2W. -/
def rowW : List CellVal := [CellVal.num 1, CellVal.str "I love this product"]

theorem original_fields_verbatim_witness :
    ∃ out, offersOf (pipelineRun analyserW (fun _ => true) 2
        [("FieldSelect", some "comment")] rin2W [rowW]).1 = [out] ∧
      out.take rin2W.fields.length = rowW ∧
      ∀ i, i < rin2W.fields.length → out.get? i = rowW.get? i :=
  original_fields_verbatim analyserW (fun _ => true) rfl (by decide) rfl rfl rfl rfl

theorem composite_label_and_scores_witness :
    ∃ out, offersOf (pipelineRun analyserW (fun _ => true) 6
        [("FieldSelect", some "comment")] rin2W [rowW]).1 = [out] ∧
      out.drop rin2W.fields.length =
        [CellVal.str (truncTo 100 (strOfScores (analyserW "I love this product"))),
         doubleCell ((findall (strOfScores (analyserW "I love this product"))).getD 0 ""),
         doubleCell ((findall (strOfScores (analyserW "I love this product"))).getD 1 ""),
         doubleCell ((findall (strOfScores (analyserW "I love this product"))).getD 2 ""),
         doubleCell ((findall (strOfScores (analyserW "I love this product"))).getD 3 "")] ∧
      doubleCell ((findall (strOfScores (analyserW "I love this product"))).getD 0 "") =
        CellVal.num (analyserW "I love this product").neg.toRat ∧
      doubleCell ((findall (strOfScores (analyserW "I love this product"))).getD 1 "") =
        CellVal.num (analyserW "I love this product").neu.toRat ∧
      doubleCell ((findall (strOfScores (analyserW "I love this product"))).getD 2 "") =
        CellVal.num (analyserW "I love this product").pos.toRat ∧
      doubleCell ((findall (strOfScores (analyserW "I love this product"))).getD 3 "") =
        CellVal.num (analyserW "I love this product").compound.toRat :=
  composite_label_and_scores analyserW (fun _ => true) rfl (by decide) rfl rfl rfl rfl

/-- C10: a fresh instance holds the five field-name strings; a successful
ii_init reassigns all five attributes to resolved field descriptors, so a
second ii_init on the same instance violates its precondition that the
attributes are name strings and fails, leaving the state unchanged. -/
theorem ii_init_single_use {tid : Nat} {xml : List (String × Option String)}
    {rin : RecordInfo} {st1 : IIState}
    (h1 : (mkIncomingInterface ((mkAyxPlugin tid).pi_init xml)).ii_init rin =
      (st1, Except.ok true)) :
    ((mkAyxPlugin tid).Sentiment_score = AttrVal.name "Sentiment_Output" ∧
     (mkAyxPlugin tid).Negative_Score = AttrVal.name "Negative_Score" ∧
     (mkAyxPlugin tid).Neutral_Score = AttrVal.name "Neutral_Score" ∧
     (mkAyxPlugin tid).Positive_Score = AttrVal.name "Positive_Score" ∧
     (mkAyxPlugin tid).Compound_Score = AttrVal.name "Compound_Score") ∧
    ((∃ f, st1.parent.Sentiment_score = AttrVal.fieldRef f) ∧
     (∃ f, st1.parent.Negative_Score = AttrVal.fieldRef f) ∧
     (∃ f, st1.parent.Neutral_Score = AttrVal.fieldRef f) ∧
     (∃ f, st1.parent.Positive_Score = AttrVal.fieldRef f) ∧
     (∃ f, st1.parent.Compound_Score = AttrVal.fieldRef f)) ∧
    (∀ rin2, st1.ii_init rin2 =
      (st1, Except.error (PyError.typeError "field name must be str"))) := by
  refine ⟨⟨rfl, rfl, rfl, rfl, rfl⟩, ?_⟩
  cases hx : xmlFind xml "FieldSelect" with
  | none =>
    simp only [mkIncomingInterface, AyxPlugin.pi_init, mkAyxPlugin, hx,
      IIState.ii_init, add_field_chain, OutputAnchor.init, freshAnchor] at h1
    repeat' split at h1
    all_goals (rw [Prod.mk.injEq] at h1; obtain ⟨hA, hB⟩ := h1)
    all_goals simp at hB
  | some t =>
    simp only [mkIncomingInterface, AyxPlugin.pi_init, mkAyxPlugin, hx,
      IIState.ii_init, add_field_chain, OutputAnchor.init, freshAnchor] at h1
    repeat' split at h1
    all_goals (rw [Prod.mk.injEq] at h1; obtain ⟨hA, hB⟩ := h1)
    all_goals try (exfalso; simp at hB; done)
    subst hA
    refine ⟨⟨⟨_, rfl⟩, ⟨_, rfl⟩, ⟨_, rfl⟩, ⟨_, rfl⟩, ⟨_, rfl⟩⟩, ?_⟩
    intro rin2
    rfl

/-- The state of a concrete successful schema negotiation, for the C10
witness. -/
def stW : IIState :=
  ((mkIncomingInterface ((mkAyxPlugin 5).pi_init
    [("FieldSelect", some "comment")])).ii_init rin2W).1

theorem ii_init_single_use_witness :
    ((mkAyxPlugin 5).Sentiment_score = AttrVal.name "Sentiment_Output" ∧
     (mkAyxPlugin 5).Negative_Score = AttrVal.name "Negative_Score" ∧
     (mkAyxPlugin 5).Neutral_Score = AttrVal.name "Neutral_Score" ∧
     (mkAyxPlugin 5).Positive_Score = AttrVal.name "Positive_Score" ∧
     (mkAyxPlugin 5).Compound_Score = AttrVal.name "Compound_Score") ∧
    ((∃ f, stW.parent.Sentiment_score = AttrVal.fieldRef f) ∧
     (∃ f, stW.parent.Negative_Score = AttrVal.fieldRef f) ∧
     (∃ f, stW.parent.Neutral_Score = AttrVal.fieldRef f) ∧
     (∃ f, stW.parent.Positive_Score = AttrVal.fieldRef f) ∧
     (∃ f, stW.parent.Compound_Score = AttrVal.fieldRef f)) ∧
    (∀ rin2, stW.ii_init rin2 =
      (stW, Except.error (PyError.typeError "field name must be str"))) :=
  @ii_init_single_use 5 [("FieldSelect", some "comment")] rin2W stW (by rfl)

/-- Every ii_push_record call either fails with an exception and offers
nothing new downstream, or offers exactly one record and returns the
downstream's verdict on it; there is never more than one offer (no retry). -/
theorem ii_push_record_offers {analyser : String → Scores}
    {accept : List CellVal → Bool} {st st1 : IIState} {r0 : List CellVal}
    {e : Except PyError Bool}
    (h : IIState.ii_push_record analyser accept st r0 = (st1, e)) :
    ((∃ err, e = Except.error err) ∧ offersOf st1 = offersOf st) ∨
    (∃ out, offersOf st1 = offersOf st ++ [out] ∧ e = Except.ok (accept out)) := by
  simp only [IIState.ii_push_record, OutputAnchor.push_record] at h
  repeat' split at h
  all_goals (rw [Prod.mk.injEq] at h; obtain ⟨hA, hB⟩ := h; subst hA; subst hB)
  all_goals first
  | exact Or.inl ⟨⟨_, rfl⟩, rfl⟩
  | (right
     simp_all only [offersOf]
     exact ⟨_, rfl, by simp_all⟩)

/-- C7: when the downstream consumer refuses the pushed output row, the
row-delivery callback returns False at once, having offered the row exactly
once (no retry), and the host loop processes none of the remaining rows. -/
theorem downstream_refusal_stops {analyser : String → Scores}
    {accept : List CellVal → Bool} {st st1 : IIState} {r0 : List CellVal}
    (rest : List (List CellVal))
    (h : IIState.ii_push_record analyser accept st r0 = (st1, Except.ok false)) :
    runRows analyser accept st (r0 :: rest) = (st1, Except.ok false) ∧
    ∃ out, offersOf st1 = offersOf st ++ [out] ∧ accept out = false := by
  constructor
  · rw [runRows, h]
  · rcases ii_push_record_offers h with ⟨⟨err, herr⟩, _⟩ | ⟨out, hoff, hacc⟩
    · simp at herr
    · refine ⟨out, hoff, ?_⟩
      rw [Except.ok.injEq] at hacc
      exact hacc.symm

/-- The rejecting downstream used by the C7 witness. -/
def rejectAll : List CellVal → Bool := fun _ => false

/-- The post-negotiation state of the C7 witness run. -/
def stRefuse : IIState :=
  ((mkIncomingInterface ((mkAyxPlugin 8).pi_init
    [("FieldSelect", some "comment")])).ii_init rin2W).1

/-- The state after the refused push of the C7 witness run. -/
def stRefuse1 : IIState :=
  (IIState.ii_push_record analyserW rejectAll stRefuse rowW).1

theorem downstream_refusal_stops_witness :
    runRows analyserW rejectAll stRefuse [rowW, [CellVal.num 2, CellVal.str "x"]] =
      (stRefuse1, Except.ok false) ∧
    ∃ out, offersOf stRefuse1 = offersOf stRefuse ++ [out] ∧ rejectAll out = false :=
  @downstream_refusal_stops analyserW rejectAll stRefuse stRefuse1 rowW
    [[CellVal.num 2, CellVal.str "x"]] (by rfl)

/-- A one-row stream run is exactly one row delivery. -/
theorem runRows_single (analyser : String → Scores) (accept : List CellVal → Bool)
    (st : IIState) (r : List CellVal) :
    runRows analyser accept st [r] = IIState.ii_push_record analyser accept st r := by
  rw [runRows]
  rcases h : IIState.ii_push_record analyser accept st r with ⟨st1, e⟩
  rcases e with err | b
  · rfl
  · cases b
    · rfl
    · show runRows analyser accept st1 [] = _
      rw [runRows]

/-- C9: two runs that push the same row through freshly initialized adapter
instances with the same configuration, Input Schema, analyzer and downstream
differ at most in tool id, and emit identical offered rows, accepted rows
and delivery result. -/
theorem run_outputs_tool_id_invariant (analyser : String → Scores)
    (accept : List CellVal → Bool) (t1 t2 : Nat)
    (xml : List (String × Option String)) (rin : RecordInfo) (row : List CellVal) :
    offersOf (pipelineRun analyser accept t1 xml rin [row]).1 =
      offersOf (pipelineRun analyser accept t2 xml rin [row]).1 ∧
    acceptedOf (pipelineRun analyser accept t1 xml rin [row]).1 =
      acceptedOf (pipelineRun analyser accept t2 xml rin [row]).1 ∧
    (pipelineRun analyser accept t1 xml rin [row]).2 =
      (pipelineRun analyser accept t2 xml rin [row]).2 := by
  cases hx : xmlFind xml "FieldSelect" with
  | none =>
    rcases h1 : (outInfo rin).getFieldRef "Sentiment_Output" with _ | f1 <;>
    rcases h2 : (outInfo rin).getFieldRef "Negative_Score" with _ | f2 <;>
    rcases h3 : (outInfo rin).getFieldRef "Neutral_Score" with _ | f3 <;>
    rcases h4 : (outInfo rin).getFieldRef "Positive_Score" with _ | f4 <;>
    rcases h5 : (outInfo rin).getFieldRef "Compound_Score" with _ | f5 <;>
      (refine ⟨?_, ?_, ?_⟩ <;>
       (simp only [pipelineRun, mkIncomingInterface, AyxPlugin.pi_init, mkAyxPlugin,
          hx, IIState.ii_init, add_field_chain, OutputAnchor.init, freshAnchor,
          h1, h2, h3, h4, h5, offersOf, acceptedOf]
        try rfl))
  | some t =>
    cases t with
    | none =>
      rcases h1 : (outInfo rin).getFieldRef "Sentiment_Output" with _ | f1 <;>
      rcases h2 : (outInfo rin).getFieldRef "Negative_Score" with _ | f2 <;>
      rcases h3 : (outInfo rin).getFieldRef "Neutral_Score" with _ | f3 <;>
      rcases h4 : (outInfo rin).getFieldRef "Positive_Score" with _ | f4 <;>
      rcases h5 : (outInfo rin).getFieldRef "Compound_Score" with _ | f5 <;>
        (refine ⟨?_, ?_, ?_⟩ <;>
         (simp only [pipelineRun, mkIncomingInterface, AyxPlugin.pi_init, mkAyxPlugin,
            hx, IIState.ii_init, add_field_chain, OutputAnchor.init, freshAnchor,
            h1, h2, h3, h4, h5, offersOf, acceptedOf]
          try rfl))
    | some sel =>
      rcases h1 : (outInfo rin).getFieldRef "Sentiment_Output" with _ | f1 <;>
      rcases h2 : (outInfo rin).getFieldRef "Negative_Score" with _ | f2 <;>
      rcases h3 : (outInfo rin).getFieldRef "Neutral_Score" with _ | f3 <;>
      rcases h4 : (outInfo rin).getFieldRef "Positive_Score" with _ | f4 <;>
      rcases h5 : (outInfo rin).getFieldRef "Compound_Score" with _ | f5 <;>
        (rcases h6 : (outInfo rin).getFieldRef sel with _ | f6
         · refine ⟨?_, ?_, ?_⟩ <;>
           (simp only [pipelineRun, mkIncomingInterface, AyxPlugin.pi_init,
              mkAyxPlugin, hx, IIState.ii_init, add_field_chain, OutputAnchor.init,
              freshAnchor, h1, h2, h3, h4, h5, h6, offersOf, acceptedOf]
            try rfl)
         · rcases h7 : FieldRef.get_as_string f6 row with _ | sentence <;>
             (refine ⟨?_, ?_, ?_⟩ <;>
              (simp only [pipelineRun, mkIncomingInterface, AyxPlugin.pi_init,
                 mkAyxPlugin, hx, IIState.ii_init, add_field_chain, OutputAnchor.init,
                 freshAnchor, h1, h2, h3, h4, h5, h6, runRows_single,
                 IIState.ii_push_record, RecordCreator.reset,
                 RecordInfo.construct_record_creator, OutputAnchor.push_record, h7,
                 findall_strOfScores, List.get?_cons_zero, List.get?_cons_succ,
                 offersOf, acceptedOf]
               try rfl)))
end VSE
